import Mathlib

/-!
# `ngstd::StringFitsPattern` (ngstd/stringops.cpp)

A shallow embedding of the wildcard matcher of `ngstd/stringops.cpp` and the
properties of it that are stated in the specification.

Modelling conventions.

* A `std::string` is a `List Char`; the zero-value character is `NUL`.
* The `int` variables of the function (`patternpos`, `strpos`, `patternsize`,
  `strsize`, `mindistance`, `maxdistance`, `nextpartsize`, `strdistance`) are
  values of `Int`.  Every conversion between `size_t`, `unsigned int` and `int`
  that the source performs is written out with `toInt32` / `toUInt32`
  (reduction modulo `2 ^ 32`).  This matters for `foundpos`, an `unsigned int`
  that receives `std::string::npos` when the literal is not found.
* The counters that are only ever incremented by one (`patternpos`,
  `mindistance`, `maxdistance`, `nextpartsize`) stay below the size of the
  pattern; they are not reduced modulo `2 ^ 32`.  The embedding is exact for
  strings whose size fits in an `int` (fewer than `2 ^ 31` characters), and the
  theorems that depend on it carry that hypothesis.
* `std::string::find` is library code; `find` below follows its documented
  behaviour.
* The loops are given a bound on their number of iterations (`patternsize`);
  `mainLoop_exit`, `wildcardRun_exit` and `literalRun_exit` show that the
  bound is never what stops them.  A second embedding, `StringFitsPatternChecked`,
  reports out-of-range reads and used-up bounds as `none`.
-/

namespace ngstd

/-- The zero-value character, the terminator of a C string. -/
def NUL : Char := Char.ofNat 0

/-- Conversion of an integer value to a 32 bit `int` (two's complement). -/
def toInt32 (n : Int) : Int := (n + 2147483648) % 4294967296 - 2147483648

/-- Conversion of an integer value to a 32 bit `unsigned int`. -/
def toUInt32 (n : Int) : Int := n % 4294967296

/-- Conversion of an integer value to a 64 bit `size_t`. -/
def toSize (n : Int) : Nat := (n % 18446744073709551616).toNat

/-- The constant `std::string::npos`, the largest value of `size_t`. -/
def npos : Nat := 18446744073709551615

/-- The character `s[i]` of a string (the zero character when `i` is not an index of `s`). -/
def charAt (s : List Char) (i : Int) : Char := s.getD (toSize i) NUL

/-- Search of `part` at the front of each suffix of a string; `i` is the index in the whole
string of the first character of the suffix. -/
def findAux (part : List Char) : List Char → Nat → Option Nat
  | [], i => if part = [] then some i else none
  | c :: cs, i => if part.isPrefixOf (c :: cs) then some i else findAux part cs (i + 1)

/-- The library function `str.find(part, pos)`: the lowest index `i ≥ pos` at which `part`
occurs in `str`, and `npos` when there is none. -/
def find (str part : List Char) (pos : Nat) : Nat :=
  if str.length < pos then npos
  else match findAux part (str.drop pos) pos with
    | some i => i
    | none => npos

/-- The loops of lines 13-15 and 20-22: the index of the first zero character of the string
that starts at index `i` of the whole string, if there is one. -/
def firstZero : List Char → Nat → Option Nat
  | [], _ => none
  | c :: cs, i => if c = NUL then some i else firstZero cs (i + 1)

/-- Lines 12-17 and 19-24: the value of `patternsize` (of `strsize`), the index of the first
zero character, or the size of the string when it has none, as an `int`. -/
def effectiveSize (s : List Char) : Int :=
  match firstZero s 0 with
  | some i => toInt32 i
  | none => toInt32 s.length

/-- The variables that live across iterations of the main loop. -/
structure State where
  patternpos : Int
  strpos : Int
  ok : Bool
  deriving DecidableEq, Repr

/-- The variables of the loop of lines 37-51. -/
structure WildcardRun where
  patternpos : Int
  mindistance : Int
  maxdistance : Int
  deriving DecidableEq, Repr

/-- The variables of the loop of lines 53-60. -/
structure LiteralRun where
  patternpos : Int
  nextpart : List Char
  nextpartsize : Int
  deriving DecidableEq, Repr

/-- Lines 37-51: the loop over a run of `?` and `*`.  The first argument bounds the number
of iterations. -/
def wildcardRun (pattern : List Char) (patternsize : Int) : Nat → WildcardRun → WildcardRun
  | 0, w => w
  | fuel + 1, w =>
    if w.patternpos < patternsize ∧
        (charAt pattern w.patternpos = '?' ∨ charAt pattern w.patternpos = '*') then
      if charAt pattern w.patternpos = '?' then
        wildcardRun pattern patternsize fuel
          { patternpos := w.patternpos + 1
            mindistance := w.mindistance + 1
            maxdistance := if w.maxdistance ≥ 0 then w.maxdistance + 1 else w.maxdistance }
      else
        wildcardRun pattern patternsize fuel
          { patternpos := w.patternpos + 1
            mindistance := w.mindistance
            maxdistance := -1 }
    else w

/-- Lines 53-60: the loop over a run of literal characters.  The first argument bounds the
number of iterations. -/
def literalRun (pattern : List Char) (patternsize : Int) : Nat → LiteralRun → LiteralRun
  | 0, l => l
  | fuel + 1, l =>
    if l.patternpos < patternsize ∧
        charAt pattern l.patternpos ≠ '?' ∧ charAt pattern l.patternpos ≠ '*' then
      literalRun pattern patternsize fuel
        { patternpos := l.patternpos + 1
          nextpart := l.nextpart ++ [charAt pattern l.patternpos]
          nextpartsize := l.nextpartsize + 1 }
    else l

/-- Line 64-72: the value of the `unsigned int foundpos`. -/
def foundposOf (str : List Char) (strsize : Int) (l : LiteralRun) (strpos : Int) : Int :=
  if l.nextpartsize = 0 then toUInt32 strsize
  else toUInt32 (find str l.nextpart (toSize strpos))

/-- Lines 77-78: the test of the distance between `strpos` and `foundpos`. -/
def distanceCheck (w : WildcardRun) (strdistance : Int) : Bool :=
  decide (w.mindistance ≤ strdistance ∧ (w.maxdistance = -1 ∨ strdistance ≤ w.maxdistance))

/-- Lines 30-83: one execution of the body of the main loop. -/
def loopBody (str pattern : List Char) (patternsize strsize : Int) (st : State) : State :=
  let w := wildcardRun pattern patternsize patternsize.toNat
    { patternpos := st.patternpos, mindistance := 0, maxdistance := 0 }
  let l := literalRun pattern patternsize patternsize.toNat
    { patternpos := w.patternpos, nextpart := [], nextpartsize := 0 }
  let foundpos := foundposOf str strsize l st.strpos
  let ok : Bool := if l.nextpartsize = 0 then st.ok else decide (foundpos ≠ (str.length : Int))
  if ok then
    let strdistance := toInt32 (toUInt32 (foundpos - toUInt32 st.strpos))
    { patternpos := l.patternpos
      strpos := toInt32 (toUInt32 (foundpos + toUInt32 l.nextpartsize))
      ok := distanceCheck w strdistance }
  else
    { patternpos := l.patternpos, strpos := st.strpos, ok := false }

/-- Lines 28-83: the main loop.  The first argument bounds the number of iterations. -/
def mainLoop (str pattern : List Char) (patternsize strsize : Int) : Nat → State → State
  | 0, st => st
  | fuel + 1, st =>
    if st.ok = true ∧ st.patternpos < patternsize ∧ st.strpos < strsize then
      mainLoop str pattern patternsize strsize fuel (loopBody str pattern patternsize strsize st)
    else st

/-- Lines 7-90: `bool StringFitsPattern(const string & str, const string & pattern)`. -/
def StringFitsPattern (str pattern : List Char) : Bool :=
  let patternsize := effectiveSize pattern
  let strsize := effectiveSize str
  let st := mainLoop str pattern patternsize strsize patternsize.toNat
    { patternpos := 0, strpos := 0, ok := true }
  if st.strpos < strsize then false else st.ok

/-- The number of executions of the body of the main loop (lines 28-83), counted along the
run of `mainLoop`. -/
def bodyExecutions (str pattern : List Char) (patternsize strsize : Int) : Nat → State → Nat
  | 0, _ => 0
  | fuel + 1, st =>
    if st.ok = true ∧ st.patternpos < patternsize ∧ st.strpos < strsize then
      bodyExecutions str pattern patternsize strsize fuel
        (loopBody str pattern patternsize strsize st) + 1
    else 0

/-! ### The function with checked reads

The same code, with every read `s[i]` checked against the size of the string and every loop
reporting that its bound on the number of iterations is used up: in both cases the result is
`none`. -/

/-- The read `s[i]`, `none` when `i` is not an index of `s`. -/
def readAt (s : List Char) (i : Int) : Option Char := s[toSize i]?

/-- Lines 13-15 and 20-22, the loop over the `unsigned int i` that looks for the first zero
character, with the variable `patternsize` (`strsize`) as last argument. -/
def scanChecked (s : List Char) : Nat → Nat → Int → Option Int
  | 0, i, size => if size < 0 ∧ i < s.length then none else some size
  | fuel + 1, i, size =>
    if size < 0 ∧ i < s.length then
      match readAt s i with
      | none => none
      | some c =>
        scanChecked s fuel ((i + 1) % 4294967296) (if c = NUL then toInt32 i else size)
    else some size

/-- Lines 12-17 and 19-24 with checked reads. -/
def effectiveSizeChecked (s : List Char) : Option Int :=
  match scanChecked s s.length 0 (-1) with
  | none => none
  | some size => some (if size < 0 then toInt32 s.length else size)

/-- Lines 37-51 with checked reads. -/
def wildcardRunChecked (pattern : List Char) (patternsize : Int) :
    Nat → WildcardRun → Option WildcardRun
  | 0, w =>
    if w.patternpos < patternsize then
      match readAt pattern w.patternpos with
      | none => none
      | some c => if c = '?' ∨ c = '*' then none else some w
    else some w
  | fuel + 1, w =>
    if w.patternpos < patternsize then
      match readAt pattern w.patternpos with
      | none => none
      | some c =>
        if c = '?' ∨ c = '*' then
          if c = '?' then
            wildcardRunChecked pattern patternsize fuel
              { patternpos := w.patternpos + 1
                mindistance := w.mindistance + 1
                maxdistance := if w.maxdistance ≥ 0 then w.maxdistance + 1 else w.maxdistance }
          else
            wildcardRunChecked pattern patternsize fuel
              { patternpos := w.patternpos + 1
                mindistance := w.mindistance
                maxdistance := -1 }
        else some w
    else some w

/-- Lines 53-60 with checked reads. -/
def literalRunChecked (pattern : List Char) (patternsize : Int) :
    Nat → LiteralRun → Option LiteralRun
  | 0, l =>
    if l.patternpos < patternsize then
      match readAt pattern l.patternpos with
      | none => none
      | some c => if c ≠ '?' ∧ c ≠ '*' then none else some l
    else some l
  | fuel + 1, l =>
    if l.patternpos < patternsize then
      match readAt pattern l.patternpos with
      | none => none
      | some c =>
        if c ≠ '?' ∧ c ≠ '*' then
          literalRunChecked pattern patternsize fuel
            { patternpos := l.patternpos + 1
              nextpart := l.nextpart ++ [c]
              nextpartsize := l.nextpartsize + 1 }
        else some l
    else some l

/-- Lines 64-81: the part of the loop body that follows the two inner loops. -/
def segmentStep (str : List Char) (strsize : Int) (st : State) (w : WildcardRun)
    (l : LiteralRun) : State :=
  let foundpos := foundposOf str strsize l st.strpos
  let ok : Bool := if l.nextpartsize = 0 then st.ok else decide (foundpos ≠ (str.length : Int))
  if ok then
    let strdistance := toInt32 (toUInt32 (foundpos - toUInt32 st.strpos))
    { patternpos := l.patternpos
      strpos := toInt32 (toUInt32 (foundpos + toUInt32 l.nextpartsize))
      ok := distanceCheck w strdistance }
  else
    { patternpos := l.patternpos, strpos := st.strpos, ok := false }

/-- Lines 30-83 with checked reads. -/
def loopBodyChecked (str pattern : List Char) (patternsize strsize : Int) (st : State) :
    Option State :=
  match wildcardRunChecked pattern patternsize patternsize.toNat
      { patternpos := st.patternpos, mindistance := 0, maxdistance := 0 } with
  | none => none
  | some w =>
    match literalRunChecked pattern patternsize patternsize.toNat
        { patternpos := w.patternpos, nextpart := [], nextpartsize := 0 } with
    | none => none
    | some l => some (segmentStep str strsize st w l)

/-- Lines 28-83 with checked reads. -/
def mainLoopChecked (str pattern : List Char) (patternsize strsize : Int) :
    Nat → State → Option State
  | 0, st =>
    if st.ok = true ∧ st.patternpos < patternsize ∧ st.strpos < strsize then none else some st
  | fuel + 1, st =>
    if st.ok = true ∧ st.patternpos < patternsize ∧ st.strpos < strsize then
      match loopBodyChecked str pattern patternsize strsize st with
      | none => none
      | some st2 => mainLoopChecked str pattern patternsize strsize fuel st2
    else some st

/-- Lines 7-90 with checked reads: `some b` when the function returns `b` with every read
inside its string, `none` otherwise. -/
def StringFitsPatternChecked (str pattern : List Char) : Option Bool :=
  match effectiveSizeChecked pattern, effectiveSizeChecked str with
  | some patternsize, some strsize =>
    match mainLoopChecked str pattern patternsize strsize patternsize.toNat
        { patternpos := 0, strpos := 0, ok := true } with
    | none => none
    | some st => some (if st.strpos < strsize then false else st.ok)
  | _, _ => none

/-- The subject (or pattern) cut off just before its first zero-value character; the string
itself when it has none. -/
def truncate (s : List Char) : List Char := s.takeWhile (fun c => decide (c ≠ NUL))

/-- Effective length: the number of characters before the first zero-value character, or the
full length when there is none. -/
def effectiveLength (s : List Char) : Nat := (truncate s).length

/-- Reference semantics of `*`: the rest of the pattern matches some suffix of the subject. -/
def starMatch (rest : List Char → Bool) : List Char → Bool
  | [] => rest []
  | c :: cs => rest (c :: cs) || starMatch rest cs

/-- Reference (backtracking) wildcard semantics, first argument the pattern: `?` stands for
exactly one character, `*` for any possibly-empty run of characters, every other character
for itself. -/
def globMatch : List Char → List Char → Bool
  | [], s => s.isEmpty
  | p :: ps, s =>
    if p = '*' then starMatch (globMatch ps) s
    else match s with
      | [] => false
      | c :: cs => (decide (p = '?') || decide (p = c)) && globMatch ps cs

end ngstd

namespace ngstd

/-! ## Conversions -/

theorem toInt32_eq_self {n : Int} (h0 : -2147483648 ≤ n) (h1 : n < 2147483648) :
    toInt32 n = n := by
  unfold toInt32; omega

theorem toInt32_lt (n : Int) : toInt32 n < 2147483648 := by
  unfold toInt32; omega

theorem toInt32_le_self {n : Int} (h0 : 0 ≤ n) : toInt32 n ≤ n := by
  unfold toInt32; omega

theorem toUInt32_eq_self {n : Int} (h0 : 0 ≤ n) (h1 : n < 4294967296) : toUInt32 n = n := by
  unfold toUInt32; omega

theorem toSize_eq_toNat {n : Int} (h0 : 0 ≤ n) (h1 : n < 18446744073709551616) :
    toSize n = n.toNat := by
  unfold toSize; congr 1; omega

theorem toSize_natCast {n : Nat} (h1 : n < 18446744073709551616) : toSize (n : Int) = n := by
  unfold toSize; omega

/-! ## Effective sizes -/

theorem firstZero_eq (s : List Char) (i : Nat) :
    (match firstZero s i with
      | some k => k
      | none => i + s.length) = i + (truncate s).length := by
  induction s generalizing i with
  | nil => simp [firstZero, truncate]
  | cons c cs ih =>
    by_cases hc : c = NUL
    · simp [firstZero, truncate, hc]
    · have := ih (i + 1)
      simp only [truncate] at this
      simp only [firstZero, truncate, hc, if_false, ne_eq, not_false_eq_true, decide_True,
        List.takeWhile_cons_of_pos, List.length_cons]
      rw [show i + (cs.length + 1) = i + 1 + cs.length by omega,
        show i + ((List.takeWhile (fun c => decide (¬c = NUL)) cs).length + 1)
          = i + 1 + (List.takeWhile (fun c => decide (¬c = NUL)) cs).length by omega]
      exact this

theorem effectiveSize_eq (s : List Char) : effectiveSize s = toInt32 (effectiveLength s) := by
  have h := firstZero_eq s 0
  unfold effectiveSize effectiveLength
  cases hz : firstZero s 0 with
  | none => rw [hz] at h; simp only at h; simp only [zero_add] at h; rw [h]
  | some k => rw [hz] at h; simp only at h; simp only [zero_add] at h; rw [h]

theorem effectiveLength_le (s : List Char) : effectiveLength s ≤ s.length := by
  unfold effectiveLength truncate
  exact (List.takeWhile_sublist _).length_le

theorem effectiveSize_of_lt {s : List Char} (h : s.length < 2147483648) :
    effectiveSize s = effectiveLength s := by
  rw [effectiveSize_eq]
  have := effectiveLength_le s
  apply toInt32_eq_self <;> omega

/-! ## The library search -/

theorem findAux_some {part : List Char} {l : List Char} {i k : Nat}
    (h : findAux part l i = some k) :
    i ≤ k ∧ k + part.length ≤ i + l.length ∧ part <+: l.drop (k - i) ∧
      ∀ j, j < k - i → ¬ part <+: l.drop j := by
  induction l generalizing i with
  | nil =>
    simp only [findAux] at h
    split at h
    · rename_i hp
      cases h
      subst hp
      simp
    · cases h
  | cons c cs ih =>
    simp only [findAux] at h
    split at h
    · rename_i hp
      cases h
      have hp2 : part <+: c :: cs := List.isPrefixOf_iff_prefix.mp hp
      refine ⟨le_refl _, ?_, by simpa using hp2, by simp⟩
      have := hp2.length_le
      omega
    · rename_i hp
      obtain ⟨h1, h2, h3, h4⟩ := ih h
      refine ⟨by omega, by simp only [List.length_cons]; omega, ?_, ?_⟩
      · rw [show k - i = (k - (i + 1)) + 1 by omega, List.drop_succ_cons]
        exact h3
      · intro j hj
        cases j with
        | zero =>
          intro hp2
          exact hp (List.isPrefixOf_iff_prefix.mpr (by simpa using hp2))
        | succ j =>
          rw [List.drop_succ_cons]
          exact h4 j (by omega)

theorem findAux_none {part : List Char} {l : List Char} {i : Nat}
    (h : findAux part l i = none) : ∀ j, ¬ part <+: l.drop j := by
  induction l generalizing i with
  | nil =>
    simp only [findAux] at h
    split at h
    · cases h
    · rename_i hp
      intro j hj
      simp at hj
      exact hp hj
  | cons c cs ih =>
    simp only [findAux] at h
    split at h
    · cases h
    · rename_i hp
      intro j
      cases j with
      | zero =>
        intro hp2
        exact hp (List.isPrefixOf_iff_prefix.mpr (by simpa using hp2))
      | succ j =>
        rw [List.drop_succ_cons]
        exact ih h j

/-- What `find` returns: `npos` when `part` does not occur at or after `pos`, and otherwise the
lowest index at or after `pos` at which it occurs. -/
theorem find_spec (str part : List Char) (pos : Nat) (hpos : pos ≤ str.length) :
    (find str part pos = npos ∧ ∀ j, pos ≤ j → ¬ part <+: str.drop j) ∨
    (pos ≤ find str part pos ∧ find str part pos + part.length ≤ str.length ∧
      part <+: str.drop (find str part pos) ∧
      ∀ j, pos ≤ j → j < find str part pos → ¬ part <+: str.drop j) := by
  unfold find
  rw [if_neg (by omega)]
  cases h : findAux part (str.drop pos) pos with
  | none =>
    left
    refine ⟨rfl, fun j hj => ?_⟩
    have := findAux_none h (j - pos)
    rwa [List.drop_drop, show pos + (j - pos) = j by omega] at this
  | some k =>
    right
    obtain ⟨h1, h2, h3, h4⟩ := findAux_some h
    simp only [List.length_drop] at h2
    show pos ≤ k ∧ k + part.length ≤ str.length ∧ part <+: str.drop k ∧
      ∀ j, pos ≤ j → j < k → ¬ part <+: str.drop j
    refine ⟨h1, by omega, ?_, fun j hj1 hj2 => ?_⟩
    · rwa [List.drop_drop, show pos + (k - pos) = k by omega] at h3
    · have := h4 (j - pos) (by omega)
      rwa [List.drop_drop, show pos + (j - pos) = j by omega] at this

/-- The search returns a given occurrence when there is none before it. -/
theorem find_eq_of {str part : List Char} {pos k : Nat} (hpos : pos ≤ str.length)
    (hk : pos ≤ k) (hocc : part <+: str.drop k)
    (hmin : ∀ j, pos ≤ j → j < k → ¬ part <+: str.drop j) : find str part pos = k := by
  rcases find_spec str part pos hpos with ⟨_, h⟩ | ⟨h1, _, h3, h4⟩
  · exact absurd hocc (h k hk)
  · rcases Nat.lt_trichotomy (find str part pos) k with hlt | heq | hgt
    · exact absurd h3 (hmin _ h1 hlt)
    · exact heq
    · exact absurd hocc (h4 k hk hgt)

theorem singleton_prefix_drop_iff (c : Char) (l : List Char) (k : Nat) :
    [c] <+: l.drop k ↔ l[k]? = some c := by
  rw [← List.head?_drop]
  cases l.drop k with
  | nil => simp
  | cons d ds => simp [List.cons_prefix_cons, eq_comm]

/-- The search for a single character `c` from the end of `p` on skips a stretch `u` without
`c` and stops at the `c` that follows it. -/
theorem find_singleton_append (p u z : List Char) (c : Char) (hu : c ∉ u) :
    find (p ++ (u ++ c :: z)) [c] p.length = p.length + u.length := by
  apply find_eq_of
  · simp
  · omega
  · rw [singleton_prefix_drop_iff, List.getElem?_append_right (by omega),
      List.getElem?_append_right (by omega)]
    simp
  · intro j hj1 hj2
    rw [singleton_prefix_drop_iff, List.getElem?_append_right hj1,
      List.getElem?_append_left (by omega), List.getElem?_eq_getElem (by omega)]
    intro h
    simp only [Option.some.injEq] at h
    exact hu (h ▸ List.getElem_mem _)

/-- The search returns `npos` for a string that does not occur in the subject at all. -/
theorem find_eq_npos_of_not_infix {str part : List Char} (pos : Nat) (hpos : pos ≤ str.length)
    (hno : ¬ part <:+: str) : find str part pos = npos := by
  rcases find_spec str part pos hpos with ⟨h, _⟩ | ⟨_, _, h3, _⟩
  · exact h
  · exact absurd (h3.isInfix.trans (List.drop_suffix _ _).isInfix) hno

/-! ## The two inner loops -/

theorem charAt_natCast {s : List Char} {p : Nat} (hp : p < s.length)
    (h64 : p < 18446744073709551616) : charAt s (p : Int) = s[p] := by
  unfold charAt
  rw [toSize_natCast h64, List.getD_eq_getElem _ _ hp]

theorem wildcardRun_stop {pattern : List Char} {psize : Int} {w : WildcardRun}
    (h : ¬ (w.patternpos < psize ∧
      (charAt pattern w.patternpos = '?' ∨ charAt pattern w.patternpos = '*')))
    (fuel : Nat) : wildcardRun pattern psize fuel w = w := by
  cases fuel with
  | zero => rfl
  | succ n => simp only [wildcardRun, if_neg h]

/-- The literal loop reads a wildcard-free pattern up to `patternsize`. -/
theorem literalRun_all {pattern : List Char} {n : Nat} (hn : n ≤ pattern.length)
    (h64 : n < 18446744073709551616)
    (hnw : ∀ c ∈ pattern.take n, c ≠ '?' ∧ c ≠ '*') :
    ∀ (fuel p : Nat) (part : List Char) (cnt : Int), p ≤ n → n - p ≤ fuel →
      literalRun pattern n fuel ⟨p, part, cnt⟩ =
        ⟨n, part ++ (pattern.take n).drop p, cnt + ((n - p : Nat) : Int)⟩ := by
  intro fuel
  induction fuel with
  | zero =>
    intro p part cnt hp hf
    have : p = n := by omega
    subst this
    simp [literalRun]
  | succ f ih =>
    intro p part cnt hp hf
    rcases Nat.lt_or_ge p n with hlt | hge
    · have hc : charAt pattern (p : Int) = pattern[p] := charAt_natCast (by omega) (by omega)
      have hmem : pattern[p] ∈ pattern.take n := by
        rw [List.mem_take_iff_getElem]
        exact ⟨p, by simp; omega, rfl⟩
      have hg : ((p : Int) < (n : Int) ∧
          charAt pattern (p : Int) ≠ '?' ∧ charAt pattern (p : Int) ≠ '*') := by
        rw [hc]
        exact ⟨by omega, hnw _ hmem⟩
      simp only [literalRun, if_pos hg]
      have := ih (p + 1) (part ++ [charAt pattern (p : Int)]) (cnt + 1) (by omega) (by omega)
      rw [show ((p : Int) + 1) = ((p + 1 : Nat) : Int) by rfl, this, hc]
      have hd : (pattern.take n).drop p = pattern[p] :: (pattern.take n).drop (p + 1) := by
        rw [List.drop_eq_getElem_cons (by simp; omega)]
        simp
      rw [hd]
      simp only [List.append_assoc, List.singleton_append, LiteralRun.mk.injEq, true_and]
      omega
    · have : p = n := by omega
      subst this
      simp [literalRun]

theorem literalRun_stop {pattern : List Char} {psize : Int} {l : LiteralRun}
    (h : ¬ (l.patternpos < psize ∧
      charAt pattern l.patternpos ≠ '?' ∧ charAt pattern l.patternpos ≠ '*'))
    (fuel : Nat) : literalRun pattern psize fuel l = l := by
  cases fuel with
  | zero => rfl
  | succ n => simp only [literalRun, if_neg h]

theorem charAt_append_cons (A Z : List Char) (c : Char)
    (h64 : (A ++ c :: Z).length < 18446744073709551616) :
    charAt (A ++ c :: Z) (A.length : Int) = c := by
  have hlt : A.length < (A ++ c :: Z).length := by simp
  rw [charAt_natCast hlt (by omega), List.getElem_append_right (le_refl _)]
  simp

/-- The wildcard loop on a run `W` of `?` and `*` that starts at the cursor and is followed by
the end of the pattern or by a literal character. -/
theorem wildcardRun_append (W R : List Char) (psize : Int)
    (hW : ∀ c ∈ W, c = '?' ∨ c = '*') :
    ∀ (A : List Char) (fuel : Nat) (mind maxd : Int),
      (psize = ((A.length + W.length : Nat) : Int) ∨
        ∃ c Z, R = c :: Z ∧ c ≠ '?' ∧ c ≠ '*') →
      ((A.length + W.length : Nat) : Int) ≤ psize →
      (A ++ (W ++ R)).length < 18446744073709551616 →
      W.length ≤ fuel →
      wildcardRun (A ++ (W ++ R)) psize fuel ⟨A.length, mind, maxd⟩ =
        ⟨((A.length + W.length : Nat) : Int), mind + (W.count '?' : Nat),
          if '*' ∈ W then -1 else if 0 ≤ maxd then maxd + (W.length : Nat) else maxd⟩ := by
  induction W with
  | nil =>
    intro A fuel mind maxd hstop hps h64 hf
    have hg : ¬ ((A.length : Int) < psize ∧
        (charAt (A ++ ([] ++ R)) (A.length : Int) = '?' ∨
          charAt (A ++ ([] ++ R)) (A.length : Int) = '*')) := by
      rcases hstop with h | ⟨c, Z, hR, h1, h2⟩
      · intro hh
        have := hh.1
        simp only [List.length_nil, Nat.add_zero] at h
        omega
      · subst hR
        simp only [List.nil_append] at h64 ⊢
        rw [charAt_append_cons A Z c h64]
        rintro ⟨_, h | h⟩
        · exact h1 h
        · exact h2 h
    rw [wildcardRun_stop (w := ⟨A.length, mind, maxd⟩) hg]
    simp
  | cons c W ih =>
    intro A fuel mind maxd hstop hps h64 hf
    obtain ⟨f, rfl⟩ : ∃ f, fuel = f + 1 := ⟨fuel - 1, by simp at hf; omega⟩
    have hc : charAt (A ++ (c :: W ++ R)) (A.length : Int) = c := by
      simp only [List.cons_append] at h64 ⊢
      exact charAt_append_cons A (W ++ R) c h64
    have hlen : (((A ++ [c]).length + W.length : Nat) : Int) =
        ((A.length + (c :: W).length : Nat) : Int) := by
      simp only [List.length_append, List.length_cons, List.length_nil]
      omega
    have hpat : A ++ (c :: W ++ R) = (A ++ [c]) ++ (W ++ R) := by simp
    have hW2 : ∀ d ∈ W, d = '?' ∨ d = '*' := fun d hd => hW d (List.mem_cons_of_mem _ hd)
    have hA1 : ((A.length : Int) + 1) = (((A ++ [c]).length : Nat) : Int) := by simp
    have hrec := fun mind2 maxd2 => ih hW2 (A ++ [c]) f mind2 maxd2
      (by rw [hlen]; exact hstop) (by rw [hlen]; exact hps) (by rw [← hpat]; exact h64)
      (by simp at hf; omega)
    have hlt : (A.length : Int) < psize := by
      simp only [List.length_cons] at hps
      omega
    rcases hW c (List.mem_cons_self _ _) with hq | hs
    · subst hq
      simp only [wildcardRun, hc, hlt, true_or, and_self, if_true]
      rw [hA1, hpat, hrec, hlen]
      simp only [List.count_cons_self, List.mem_cons, List.length_cons, WildcardRun.mk.injEq,
        true_and, (by decide : ¬ ('*' = '?')), false_or]
      refine ⟨by push_cast; ring, ?_⟩
      by_cases h1 : '*' ∈ W
      · simp only [h1, if_true]
      · by_cases h2 : 0 ≤ maxd
        · have h3 : 0 ≤ maxd + 1 := by omega
          simp only [h1, h2, h3, if_true, if_false, ge_iff_le]
          push_cast
          ring
        · simp only [h1, h2, if_false, ge_iff_le]
    · subst hs
      simp only [wildcardRun, hc, hlt, or_true, and_self, if_true,
        (by decide : ¬ ('*' = '?')), if_false]
      rw [hA1, hpat, hrec, hlen]
      simp only [List.mem_cons, true_or, if_true, WildcardRun.mk.injEq, true_and]
      refine ⟨?_, ?_⟩
      · rw [List.count_cons_of_ne (by decide)]
      · split <;> simp

/-- The literal loop on a run `L` of literal characters that starts at the cursor and is
followed by the end of the pattern or by a `?` or `*`. -/
theorem literalRun_append (L R : List Char) (psize : Int)
    (hL : ∀ c ∈ L, c ≠ '?' ∧ c ≠ '*') :
    ∀ (A : List Char) (fuel : Nat) (part : List Char) (cnt : Int),
      (psize = ((A.length + L.length : Nat) : Int) ∨
        ∃ c Z, R = c :: Z ∧ (c = '?' ∨ c = '*')) →
      ((A.length + L.length : Nat) : Int) ≤ psize →
      (A ++ (L ++ R)).length < 18446744073709551616 →
      L.length ≤ fuel →
      literalRun (A ++ (L ++ R)) psize fuel ⟨A.length, part, cnt⟩ =
        ⟨((A.length + L.length : Nat) : Int), part ++ L, cnt + (L.length : Nat)⟩ := by
  induction L with
  | nil =>
    intro A fuel part cnt hstop hps h64 hf
    have hg : ¬ ((A.length : Int) < psize ∧
        charAt (A ++ ([] ++ R)) (A.length : Int) ≠ '?' ∧
          charAt (A ++ ([] ++ R)) (A.length : Int) ≠ '*') := by
      rcases hstop with h | ⟨c, Z, hR, h1⟩
      · intro hh
        have := hh.1
        simp only [List.length_nil, Nat.add_zero] at h
        omega
      · subst hR
        simp only [List.nil_append] at h64 ⊢
        rw [charAt_append_cons A Z c h64]
        rintro ⟨_, h2, h3⟩
        rcases h1 with h | h
        · exact h2 h
        · exact h3 h
    rw [literalRun_stop (l := ⟨A.length, part, cnt⟩) hg]
    simp
  | cons c L ih =>
    intro A fuel part cnt hstop hps h64 hf
    obtain ⟨f, rfl⟩ : ∃ f, fuel = f + 1 := ⟨fuel - 1, by simp at hf; omega⟩
    have hc : charAt (A ++ (c :: L ++ R)) (A.length : Int) = c := by
      simp only [List.cons_append] at h64 ⊢
      exact charAt_append_cons A (L ++ R) c h64
    have hlen : (((A ++ [c]).length + L.length : Nat) : Int) =
        ((A.length + (c :: L).length : Nat) : Int) := by
      simp only [List.length_append, List.length_cons, List.length_nil]
      omega
    have hpat : A ++ (c :: L ++ R) = (A ++ [c]) ++ (L ++ R) := by simp
    have hL2 : ∀ d ∈ L, d ≠ '?' ∧ d ≠ '*' := fun d hd => hL d (List.mem_cons_of_mem _ hd)
    have hA1 : ((A.length : Int) + 1) = (((A ++ [c]).length : Nat) : Int) := by simp
    have hrec := fun part2 cnt2 => ih hL2 (A ++ [c]) f part2 cnt2
      (by rw [hlen]; exact hstop) (by rw [hlen]; exact hps) (by rw [← hpat]; exact h64)
      (by simp at hf; omega)
    have hlt : (A.length : Int) < psize := by
      simp only [List.length_cons] at hps
      omega
    have hcl := hL c (List.mem_cons_self _ _)
    simp only [literalRun, hc, hlt, ne_eq, hcl.1, hcl.2, not_false_eq_true, and_self, if_true]
    rw [hA1, hpat, hrec, hlen]
    simp only [List.append_assoc, List.singleton_append, List.length_cons, LiteralRun.mk.injEq,
      true_and]
    push_cast
    ring

/-- The wildcard loop reads the pattern below `patternsize` only. -/
theorem wildcardRun_congr {p q : List Char} {psize : Int}
    (hag : ∀ i : Int, 0 ≤ i → i < psize → charAt p i = charAt q i) :
    ∀ (fuel : Nat) (w : WildcardRun), 0 ≤ w.patternpos →
      wildcardRun p psize fuel w = wildcardRun q psize fuel w := by
  intro fuel
  induction fuel with
  | zero => intro w _; rfl
  | succ f ih =>
    intro w hw
    by_cases hlt : w.patternpos < psize
    · simp only [wildcardRun, hag _ hw hlt]
      rw [ih _ (show (0 : Int) ≤ w.patternpos + 1 by omega),
        ih _ (show (0 : Int) ≤ w.patternpos + 1 by omega)]
    · simp only [wildcardRun, hlt, false_and, if_false]

/-- The literal loop reads the pattern below `patternsize` only. -/
theorem literalRun_congr {p q : List Char} {psize : Int}
    (hag : ∀ i : Int, 0 ≤ i → i < psize → charAt p i = charAt q i) :
    ∀ (fuel : Nat) (l : LiteralRun), 0 ≤ l.patternpos →
      literalRun p psize fuel l = literalRun q psize fuel l := by
  intro fuel
  induction fuel with
  | zero => intro l _; rfl
  | succ f ih =>
    intro l hl
    by_cases hlt : l.patternpos < psize
    · simp only [literalRun, hag _ hl hlt]
      rw [ih _ (show (0 : Int) ≤ l.patternpos + 1 by omega)]
    · simp only [literalRun, hlt, false_and, if_false]

theorem wildcardRun_patternpos_le (pattern : List Char) (psize : Int) :
    ∀ (fuel : Nat) (w : WildcardRun),
      w.patternpos ≤ (wildcardRun pattern psize fuel w).patternpos := by
  intro fuel
  induction fuel with
  | zero => intro w; exact le_refl _
  | succ f ih =>
    intro w
    simp only [wildcardRun]
    split
    · split
      · exact le_trans (by simp) (ih _)
      · exact le_trans (by simp) (ih _)
    · exact le_refl _

theorem literalRun_patternpos_le (pattern : List Char) (psize : Int) :
    ∀ (fuel : Nat) (l : LiteralRun),
      l.patternpos ≤ (literalRun pattern psize fuel l).patternpos := by
  intro fuel
  induction fuel with
  | zero => intro l; exact le_refl _
  | succ f ih =>
    intro l
    simp only [literalRun]
    split
    · exact le_trans (by simp) (ih _)
    · exact le_refl _

/-! ## One execution of the loop body -/

theorem mainLoop_stop {str pattern : List Char} {psize ssize : Int} {st : State}
    (h : ¬ (st.ok = true ∧ st.patternpos < psize ∧ st.strpos < ssize)) (fuel : Nat) :
    mainLoop str pattern psize ssize fuel st = st := by
  cases fuel with
  | zero => rfl
  | succ n => simp only [mainLoop, if_neg h]

theorem mainLoop_step {str pattern : List Char} {psize ssize : Int} {st : State}
    (h : st.ok = true ∧ st.patternpos < psize ∧ st.strpos < ssize) (fuel : Nat) :
    mainLoop str pattern psize ssize (fuel + 1) st =
      mainLoop str pattern psize ssize fuel (loopBody str pattern psize ssize st) := by
  simp only [mainLoop, if_pos h]

/-- The body of the loop when the segment has no literal: the subject is consumed to its
end and the distance to the end is tested. -/
theorem loopBody_noLiteral {str pattern : List Char} {psize ssize : Int} {st : State}
    {w : WildcardRun} {l : LiteralRun}
    (hw : wildcardRun pattern psize psize.toNat ⟨st.patternpos, 0, 0⟩ = w)
    (hl : literalRun pattern psize psize.toNat ⟨w.patternpos, [], 0⟩ = l)
    (hz : l.nextpartsize = 0) (hok : st.ok = true)
    (h0 : 0 ≤ st.strpos) (h1 : st.strpos ≤ ssize) (h2 : ssize < 2147483648) :
    loopBody str pattern psize ssize st =
      ⟨l.patternpos, ssize, distanceCheck w (ssize - st.strpos)⟩ := by
  have e1 : toInt32 (toUInt32 (toUInt32 ssize - toUInt32 st.strpos)) = ssize - st.strpos := by
    unfold toInt32 toUInt32; omega
  have e2 : toInt32 (toUInt32 (toUInt32 ssize + toUInt32 0)) = ssize := by
    unfold toInt32 toUInt32; omega
  simp only [loopBody, hw, hl, foundposOf, hz, hok, if_true, e1, e2]

/-- The body of the loop when the literal of the segment is found at index `k`. -/
theorem loopBody_found {str pattern : List Char} {psize ssize : Int} (st : State)
    {w : WildcardRun} {l : LiteralRun} {k : Nat}
    (hw : wildcardRun pattern psize psize.toNat ⟨st.patternpos, 0, 0⟩ = w)
    (hl : literalRun pattern psize psize.toNat ⟨w.patternpos, [], 0⟩ = l)
    (hz : 0 < l.nextpartsize)
    (hfind : find str l.nextpart (toSize st.strpos) = k)
    (h0 : 0 ≤ st.strpos) (h1 : st.strpos ≤ k) (h2 : k + l.nextpartsize < 2147483648)
    (h3 : k ≠ str.length) :
    loopBody str pattern psize ssize st =
      ⟨l.patternpos, k + l.nextpartsize, distanceCheck w (k - st.strpos)⟩ := by
  have hz2 : l.nextpartsize ≠ 0 := by omega
  have e0 : toUInt32 (k : Int) = k := by unfold toUInt32; omega
  have e1 : toInt32 (toUInt32 ((k : Int) - toUInt32 st.strpos)) = k - st.strpos := by
    unfold toInt32 toUInt32; omega
  have e2 : toInt32 (toUInt32 ((k : Int) + toUInt32 l.nextpartsize)) = k + l.nextpartsize := by
    unfold toInt32 toUInt32; omega
  have e3 : ((k : Int) ≠ (str.length : Int)) := by omega
  simp only [loopBody, hw, hl, foundposOf, hz2, if_false, hfind, e0, e1, e2, e3, ne_eq,
    not_false_eq_true, decide_True, if_true]

/-- The body of the loop when the literal of the segment is not found: `foundpos` holds
`npos` reduced to 32 bits, and the loop is left with `ok` false. -/
theorem loopBody_notFound {pattern : List Char} {psize : Int} (str : List Char) (ssize : Int)
    (st : State) {w : WildcardRun} {l : LiteralRun}
    (hw : wildcardRun pattern psize psize.toNat ⟨st.patternpos, 0, 0⟩ = w)
    (hl : literalRun pattern psize psize.toNat ⟨w.patternpos, [], 0⟩ = l)
    (hz : l.nextpartsize ≠ 0)
    (hfind : find str l.nextpart (toSize st.strpos) = npos)
    (h0 : 0 ≤ st.strpos) (h1 : st.strpos < 2147483648) (hmin : 0 ≤ w.mindistance) :
    (loopBody str pattern psize ssize st).ok = false ∧
      (loopBody str pattern psize ssize st).patternpos = l.patternpos := by
  have e0 : toUInt32 ((npos : Nat) : Int) = 4294967295 := by decide
  have e1 : toInt32 (toUInt32 (4294967295 - toUInt32 st.strpos)) = -1 - st.strpos := by
    unfold toInt32 toUInt32; omega
  simp only [loopBody, hw, hl, foundposOf, hz, if_false, hfind, e0, e1]
  split
  · refine ⟨?_, rfl⟩
    simp only [distanceCheck, decide_eq_false_iff_not, not_and]
    intro h
    omega
  · exact ⟨rfl, rfl⟩

theorem loopBody_patternpos (str pattern : List Char) (psize ssize : Int) (st : State) :
    (loopBody str pattern psize ssize st).patternpos =
      (literalRun pattern psize psize.toNat
        ⟨(wildcardRun pattern psize psize.toNat ⟨st.patternpos, 0, 0⟩).patternpos, [], 0⟩).patternpos := by
  simp only [loopBody, apply_ite State.patternpos, ite_self]

/-- The pattern cursor does not decrease in an execution of the loop body. -/
theorem loopBody_patternpos_le (str pattern : List Char) (psize ssize : Int) (st : State) :
    st.patternpos ≤ (loopBody str pattern psize ssize st).patternpos := by
  rw [loopBody_patternpos]
  exact le_trans (wildcardRun_patternpos_le pattern psize _ ⟨st.patternpos, 0, 0⟩)
    (literalRun_patternpos_le pattern psize _ _)

theorem loopBody_congr {p q : List Char} {psize : Int}
    (hag : ∀ i : Int, 0 ≤ i → i < psize → charAt p i = charAt q i)
    (str : List Char) (ssize : Int) (st : State) (hst : 0 ≤ st.patternpos) :
    loopBody str p psize ssize st = loopBody str q psize ssize st := by
  have hw := wildcardRun_congr hag psize.toNat ⟨st.patternpos, 0, 0⟩ hst
  have hwp := wildcardRun_patternpos_le q psize psize.toNat ⟨st.patternpos, 0, 0⟩
  have hl := literalRun_congr hag psize.toNat
    ⟨(wildcardRun q psize psize.toNat ⟨st.patternpos, 0, 0⟩).patternpos, [], 0⟩
    (le_trans hst hwp)
  simp only [loopBody, hw, hl]

theorem mainLoop_congr {p q : List Char} {psize : Int}
    (hag : ∀ i : Int, 0 ≤ i → i < psize → charAt p i = charAt q i)
    (str : List Char) (ssize : Int) :
    ∀ (fuel : Nat) (st : State), 0 ≤ st.patternpos →
      mainLoop str p psize ssize fuel st = mainLoop str q psize ssize fuel st := by
  intro fuel
  induction fuel with
  | zero => intro st _; rfl
  | succ f ih =>
    intro st hst
    simp only [mainLoop, loopBody_congr hag str ssize st hst]
    split
    · exact ih _ (le_trans hst (loopBody_patternpos_le str q psize ssize st))
    · rfl

/-! ## The iteration bounds are not reached

The three loops are given as many iterations as `patternsize`; each of them stops because its
condition fails, never because the bound is used up. -/

theorem wildcardRun_exit (pattern : List Char) (psize : Int) :
    ∀ (fuel : Nat) (w : WildcardRun), psize - w.patternpos ≤ fuel →
      ¬ ((wildcardRun pattern psize fuel w).patternpos < psize ∧
        (charAt pattern (wildcardRun pattern psize fuel w).patternpos = '?' ∨
          charAt pattern (wildcardRun pattern psize fuel w).patternpos = '*')) := by
  intro fuel
  induction fuel with
  | zero =>
    intro w hf h
    simp only [wildcardRun] at h
    have := h.1
    omega
  | succ f ih =>
    intro w hf
    simp only [wildcardRun]
    split
    · split
      · exact ih _ (by simp only []; omega)
      · exact ih _ (by simp only []; omega)
    · assumption

theorem literalRun_exit (pattern : List Char) (psize : Int) :
    ∀ (fuel : Nat) (l : LiteralRun), psize - l.patternpos ≤ fuel →
      ¬ ((literalRun pattern psize fuel l).patternpos < psize ∧
        charAt pattern (literalRun pattern psize fuel l).patternpos ≠ '?' ∧
          charAt pattern (literalRun pattern psize fuel l).patternpos ≠ '*') := by
  intro fuel
  induction fuel with
  | zero =>
    intro l hf h
    simp only [literalRun] at h
    have := h.1
    omega
  | succ f ih =>
    intro l hf
    simp only [literalRun]
    split
    · exact ih _ (by simp only []; omega)
    · assumption

/-- The pattern cursor increases in every execution of the loop body that starts below
`patternsize`. -/
theorem loopBody_patternpos_lt (str pattern : List Char) (psize ssize : Int) (st : State)
    (h0 : 0 ≤ st.patternpos) (h1 : st.patternpos < psize) :
    st.patternpos < (loopBody str pattern psize ssize st).patternpos := by
  rw [loopBody_patternpos]
  have hle := wildcardRun_patternpos_le pattern psize psize.toNat ⟨st.patternpos, 0, 0⟩
  have hex := wildcardRun_exit pattern psize psize.toNat ⟨st.patternpos, 0, 0⟩
    (by simp only []; omega)
  generalize wildcardRun pattern psize psize.toNat ⟨st.patternpos, 0, 0⟩ = w at hle hex
  simp only [] at hle
  have hle2 := literalRun_patternpos_le pattern psize psize.toNat ⟨w.patternpos, [], 0⟩
  simp only [] at hle2
  rcases lt_or_eq_of_le hle with hlt | heq
  · omega
  · obtain ⟨f, hf⟩ : ∃ f, psize.toNat = f + 1 := ⟨psize.toNat - 1, by omega⟩
    have hg : ((⟨w.patternpos, [], 0⟩ : LiteralRun).patternpos < psize ∧
        charAt pattern (⟨w.patternpos, [], 0⟩ : LiteralRun).patternpos ≠ '?' ∧
        charAt pattern (⟨w.patternpos, [], 0⟩ : LiteralRun).patternpos ≠ '*') := by
      simp only []
      refine ⟨by omega, fun e => hex ⟨by omega, Or.inl e⟩, fun e => hex ⟨by omega, Or.inr e⟩⟩
    rw [hf]
    simp only [literalRun, if_pos hg]
    have := literalRun_patternpos_le pattern psize f
      ⟨w.patternpos + 1, [] ++ [charAt pattern w.patternpos], 0 + 1⟩
    simp only [] at this
    omega

/-- The main loop stops because its condition fails. -/
theorem mainLoop_exit (str pattern : List Char) (psize ssize : Int) :
    ∀ (fuel : Nat) (st : State), 0 ≤ st.patternpos → psize - st.patternpos ≤ fuel →
      ¬ ((mainLoop str pattern psize ssize fuel st).ok = true ∧
        (mainLoop str pattern psize ssize fuel st).patternpos < psize ∧
        (mainLoop str pattern psize ssize fuel st).strpos < ssize) := by
  intro fuel
  induction fuel with
  | zero =>
    intro st _ hf h
    simp only [mainLoop] at h
    have := h.2.1
    omega
  | succ f ih =>
    intro st h0 hf
    by_cases hg : st.ok = true ∧ st.patternpos < psize ∧ st.strpos < ssize
    · rw [mainLoop_step hg]
      have := loopBody_patternpos_lt str pattern psize ssize st h0 hg.2.1
      exact ih _ (by omega) (by omega)
    · rw [mainLoop_stop hg]
      exact hg

/-- More iterations than `patternsize` change nothing. -/
theorem mainLoop_add_fuel (str pattern : List Char) (psize ssize : Int) (k : Nat) :
    ∀ (fuel : Nat) (st : State), 0 ≤ st.patternpos → psize - st.patternpos ≤ fuel →
      mainLoop str pattern psize ssize (fuel + k) st =
        mainLoop str pattern psize ssize fuel st := by
  intro fuel
  induction fuel with
  | zero =>
    intro st _ hf
    have hg : ¬ (st.ok = true ∧ st.patternpos < psize ∧ st.strpos < ssize) := by
      intro h
      have := h.2.1
      omega
    rw [mainLoop_stop hg, mainLoop_stop hg]
  | succ f ih =>
    intro st h0 hf
    by_cases hg : st.ok = true ∧ st.patternpos < psize ∧ st.strpos < ssize
    · rw [show f + 1 + k = (f + k) + 1 by omega, mainLoop_step hg, mainLoop_step hg]
      have := loopBody_patternpos_lt str pattern psize ssize st h0 hg.2.1
      exact ih _ (by omega) (by omega)
    · rw [mainLoop_stop hg, mainLoop_stop hg]

/-! ## Truncation at the terminator -/

theorem truncate_truncate (s : List Char) : truncate (truncate s) = truncate s := by
  unfold truncate
  exact List.takeWhile_idem

theorem effectiveSize_truncate (s : List Char) : effectiveSize (truncate s) = effectiveSize s := by
  rw [effectiveSize_eq, effectiveSize_eq]
  unfold effectiveLength
  rw [truncate_truncate]

theorem charAt_truncate (s : List Char) (i : Int) (h0 : 0 ≤ i) (h1 : i < effectiveSize s) :
    charAt s i = charAt (truncate s) i := by
  rw [effectiveSize_eq] at h1
  have h2 := toInt32_le_self (n := (effectiveLength s : Int)) (by omega)
  have h3 := toInt32_lt (effectiveLength s : Int)
  have hi : toSize i < (truncate s).length := by
    rw [toSize_eq_toNat h0 (by omega)]
    unfold effectiveLength at h1 h2
    omega
  unfold charAt
  conv_lhs => rw [show s = truncate s ++ s.dropWhile (fun c => decide (c ≠ NUL)) from
    (List.takeWhile_append_dropWhile _ _).symm]
  exact List.getD_append _ _ _ _ hi

theorem truncate_eq_self {s : List Char} (h : NUL ∉ s) : truncate s = s := by
  unfold truncate
  rw [List.takeWhile_eq_self_iff]
  intro c hc
  simp only [ne_eq, decide_eq_true_eq]
  exact fun e => h (e ▸ hc)

theorem effectiveSize_of_no_nul {s : List Char} (h : NUL ∉ s) (hlen : s.length < 2147483648) :
    effectiveSize s = s.length := by
  rw [effectiveSize_of_lt hlen]
  unfold effectiveLength
  rw [truncate_eq_self h]

/-- The characters before the effective length are those of the truncated string. -/
theorem getElem?_truncate {s : List Char} {i : Nat} (h : i < effectiveLength s) :
    (truncate s)[i]? = s[i]? := by
  conv_rhs => rw [show s = truncate s ++ s.dropWhile (fun c => decide (c ≠ NUL)) from
    (List.takeWhile_append_dropWhile _ _).symm]
  rw [List.getElem?_append_left h]

/-! ## The result of the function -/

theorem fits_of_final {str pattern : List Char} {st : State}
    (h : mainLoop str pattern (effectiveSize pattern) (effectiveSize str)
      (effectiveSize pattern).toNat ⟨0, 0, true⟩ = st) :
    StringFitsPattern str pattern = (if st.strpos < effectiveSize str then false else st.ok) := by
  simp only [StringFitsPattern, h]

theorem mainLoop_of_not_ok {str pattern : List Char} {psize ssize : Int} {st : State}
    (h : st.ok = false) (fuel : Nat) : mainLoop str pattern psize ssize fuel st = st :=
  mainLoop_stop (by simp [h]) fuel

/-- The result when the loop body is executed once. -/
theorem fits_of_first_body {str pattern : List Char} {s : State}
    (hp : 0 < effectiveSize pattern) (hs : 0 < effectiveSize str)
    (hb : loopBody str pattern (effectiveSize pattern) (effectiveSize str) ⟨0, 0, true⟩ = s)
    (hstop : ¬ (s.ok = true ∧ s.patternpos < effectiveSize pattern ∧
      s.strpos < effectiveSize str)) :
    StringFitsPattern str pattern = (if s.strpos < effectiveSize str then false else s.ok) := by
  apply fits_of_final
  obtain ⟨f, hf⟩ : ∃ f, (effectiveSize pattern).toNat = f + 1 :=
    ⟨(effectiveSize pattern).toNat - 1, by omega⟩
  rw [hf, mainLoop_step ⟨rfl, hp, hs⟩, hb, mainLoop_stop hstop]

/-- The result when the loop body is executed twice. -/
theorem fits_of_second_body {str pattern : List Char} {s t : State}
    (hp : 0 < effectiveSize pattern) (hs : 0 < effectiveSize str)
    (hb : loopBody str pattern (effectiveSize pattern) (effectiveSize str) ⟨0, 0, true⟩ = s)
    (hg : s.ok = true ∧ s.patternpos < effectiveSize pattern ∧ s.strpos < effectiveSize str)
    (hb2 : loopBody str pattern (effectiveSize pattern) (effectiveSize str) s = t)
    (hstop : ¬ (t.ok = true ∧ t.patternpos < effectiveSize pattern ∧
      t.strpos < effectiveSize str)) :
    StringFitsPattern str pattern = (if t.strpos < effectiveSize str then false else t.ok) := by
  apply fits_of_final
  have h1 := loopBody_patternpos_lt str pattern (effectiveSize pattern) (effectiveSize str)
    ⟨0, 0, true⟩ (le_refl _) hp
  rw [hb] at h1
  simp only [] at h1
  obtain ⟨f, hf⟩ : ∃ f, (effectiveSize pattern).toNat = f + 1 + 1 :=
    ⟨(effectiveSize pattern).toNat - 2, by omega⟩
  rw [hf, mainLoop_step ⟨rfl, hp, hs⟩, hb, mainLoop_step hg, hb2, mainLoop_stop hstop]

/-- The result when the first execution of the loop body ends with `ok` false. -/
theorem fits_false_of_first_body {str pattern : List Char}
    (hp : 0 < effectiveSize pattern) (hs : 0 < effectiveSize str)
    (hb : (loopBody str pattern (effectiveSize pattern) (effectiveSize str) ⟨0, 0, true⟩).ok =
      false) :
    StringFitsPattern str pattern = false := by
  rw [fits_of_first_body hp hs rfl (by simp [hb]), hb]
  simp

/-! ## Progress of the cursors -/

theorem mainLoop_patternpos_le (str pattern : List Char) (psize ssize : Int) :
    ∀ (fuel : Nat) (st : State),
      st.patternpos ≤ (mainLoop str pattern psize ssize fuel st).patternpos := by
  intro fuel
  induction fuel with
  | zero => intro st; exact le_refl _
  | succ f ih =>
    intro st
    simp only [mainLoop]
    split
    · exact le_trans (loopBody_patternpos_le str pattern psize ssize st) (ih _)
    · exact le_refl _

theorem bodyExecutions_le (str pattern : List Char) (psize ssize : Int) :
    ∀ (fuel : Nat) (st : State), 0 ≤ st.patternpos →
      bodyExecutions str pattern psize ssize fuel st ≤ (psize - st.patternpos).toNat := by
  intro fuel
  induction fuel with
  | zero => intro st _; simp [bodyExecutions]
  | succ f ih =>
    intro st h0
    simp only [bodyExecutions]
    split
    · rename_i hg
      have h1 := loopBody_patternpos_lt str pattern psize ssize st h0 hg.2.1
      have h2 := ih (loopBody str pattern psize ssize st) (by omega)
      omega
    · omega

theorem effectiveSize_le_length (s : List Char) : effectiveSize s ≤ s.length := by
  rw [effectiveSize_eq]
  have h1 := toInt32_le_self (n := (effectiveLength s : Int)) (by omega)
  have h2 := effectiveLength_le s
  omega

theorem effectiveSize_toNat_le (s : List Char) :
    (effectiveSize s).toNat ≤ effectiveLength s := by
  rw [effectiveSize_eq]
  have h1 := toInt32_le_self (n := (effectiveLength s : Int)) (by omega)
  omega

/-! ## Checked reads -/

theorem readAt_eq {s : List Char} {i : Int} (h0 : 0 ≤ i) (h1 : i < s.length)
    (h64 : s.length < 18446744073709551616) : readAt s i = some (charAt s i) := by
  unfold readAt charAt
  have h : toSize i < s.length := by
    rw [toSize_eq_toNat h0 (by omega)]; omega
  rw [List.getElem?_eq_getElem h, List.getD_eq_getElem _ _ h]

theorem scanChecked_done (s : List Char) {size : Int} (h : 0 ≤ size) (fuel i : Nat) :
    scanChecked s fuel i size = some size := by
  cases fuel with
  | zero => simp only [scanChecked]; rw [if_neg (by omega)]
  | succ f => simp only [scanChecked]; rw [if_neg (by omega)]

theorem scanChecked_eq (s : List Char) (hlen : s.length < 2147483648) :
    ∀ (fuel i : Nat), i ≤ s.length → s.length - i ≤ fuel →
      scanChecked s fuel i (-1) =
        some (match firstZero (s.drop i) i with
          | some k => toInt32 k
          | none => -1) := by
  intro fuel
  induction fuel with
  | zero =>
    intro i hi hf
    have : i = s.length := by omega
    subst this
    simp [scanChecked, firstZero]
  | succ f ih =>
    intro i hi hf
    rcases Nat.lt_or_ge i s.length with hlt | hge
    · have hr : readAt s (i : Int) = some s[i] := by
        rw [readAt_eq (by omega) (by omega) (by omega), charAt_natCast hlt (by omega)]
      have hd : s.drop i = s[i] :: s.drop (i + 1) := List.drop_eq_getElem_cons hlt
      have hmod : (i + 1) % 4294967296 = i + 1 := Nat.mod_eq_of_lt (by omega)
      simp only [scanChecked]
      rw [if_pos ⟨by decide, hlt⟩, hr, hd]
      simp only [firstZero, hmod]
      by_cases hc : s[i] = NUL
      · simp only [hc, if_true]
        exact scanChecked_done s (by unfold toInt32; omega) _ _
      · simp only [hc, if_false]
        exact ih (i + 1) (by omega) (by omega)
    · have : i = s.length := by omega
      subst this
      simp [scanChecked, firstZero]

theorem effectiveSizeChecked_eq (s : List Char) (hlen : s.length < 2147483648) :
    effectiveSizeChecked s = some (effectiveSize s) := by
  unfold effectiveSizeChecked effectiveSize
  rw [scanChecked_eq s hlen s.length 0 (Nat.zero_le _) (by omega)]
  simp only [List.drop_zero]
  have h := firstZero_eq s 0
  have hle := effectiveLength_le s
  unfold effectiveLength at hle
  cases hz : firstZero s 0 with
  | none => simp
  | some k =>
    rw [hz] at h
    simp only [zero_add] at h
    simp only [Option.some.injEq]
    have hk : toInt32 (k : Int) = k := toInt32_eq_self (by omega) (by omega)
    rw [hk, if_neg (by omega)]

theorem wildcardRunChecked_eq {pattern : List Char} {psize : Int}
    (hps : psize ≤ pattern.length) (h64 : pattern.length < 18446744073709551616) :
    ∀ (fuel : Nat) (w : WildcardRun), 0 ≤ w.patternpos → psize - w.patternpos ≤ fuel →
      wildcardRunChecked pattern psize fuel w = some (wildcardRun pattern psize fuel w) := by
  intro fuel
  induction fuel with
  | zero =>
    intro w h0 hf
    simp only [wildcardRunChecked, wildcardRun]
    rw [if_neg (by omega)]
  | succ f ih =>
    intro w h0 hf
    by_cases hlt : w.patternpos < psize
    · simp only [wildcardRunChecked, wildcardRun, hlt, if_true, true_and,
        readAt_eq h0 (by omega) h64]
      split
      · split
        · exact ih _ (by simp only []; omega) (by simp only []; omega)
        · exact ih _ (by simp only []; omega) (by simp only []; omega)
      · rfl
    · simp only [wildcardRunChecked, wildcardRun, hlt, if_false, false_and]

theorem literalRunChecked_eq {pattern : List Char} {psize : Int}
    (hps : psize ≤ pattern.length) (h64 : pattern.length < 18446744073709551616) :
    ∀ (fuel : Nat) (l : LiteralRun), 0 ≤ l.patternpos → psize - l.patternpos ≤ fuel →
      literalRunChecked pattern psize fuel l = some (literalRun pattern psize fuel l) := by
  intro fuel
  induction fuel with
  | zero =>
    intro l h0 hf
    simp only [literalRunChecked, literalRun]
    rw [if_neg (by omega)]
  | succ f ih =>
    intro l h0 hf
    by_cases hlt : l.patternpos < psize
    · simp only [literalRunChecked, literalRun, hlt, if_true, true_and,
        readAt_eq h0 (by omega) h64]
      split
      · exact ih _ (by simp only []; omega) (by simp only []; omega)
      · rfl
    · simp only [literalRunChecked, literalRun, hlt, if_false, false_and]

theorem loopBody_eq_segmentStep (str pattern : List Char) (psize ssize : Int) (st : State) :
    loopBody str pattern psize ssize st =
      segmentStep str ssize st (wildcardRun pattern psize psize.toNat ⟨st.patternpos, 0, 0⟩)
        (literalRun pattern psize psize.toNat
          ⟨(wildcardRun pattern psize psize.toNat ⟨st.patternpos, 0, 0⟩).patternpos, [], 0⟩) :=
  rfl

theorem loopBodyChecked_eq {pattern : List Char} {psize : Int}
    (hps : psize ≤ pattern.length) (h64 : pattern.length < 18446744073709551616)
    (str : List Char) (ssize : Int) (st : State) (h0 : 0 ≤ st.patternpos) :
    loopBodyChecked str pattern psize ssize st = some (loopBody str pattern psize ssize st) := by
  have hw := wildcardRunChecked_eq hps h64 psize.toNat ⟨st.patternpos, 0, 0⟩ h0
    (by simp only []; omega)
  have hle := wildcardRun_patternpos_le pattern psize psize.toNat ⟨st.patternpos, 0, 0⟩
  simp only [] at hle
  have hl := literalRunChecked_eq hps h64 psize.toNat
    ⟨(wildcardRun pattern psize psize.toNat ⟨st.patternpos, 0, 0⟩).patternpos, [], 0⟩
    (by simp only []; omega) (by simp only []; omega)
  simp only [loopBodyChecked, hw, hl, loopBody_eq_segmentStep]

theorem mainLoopChecked_eq {pattern : List Char} {psize : Int}
    (hps : psize ≤ pattern.length) (h64 : pattern.length < 18446744073709551616)
    (str : List Char) (ssize : Int) :
    ∀ (fuel : Nat) (st : State), 0 ≤ st.patternpos → psize - st.patternpos ≤ fuel →
      mainLoopChecked str pattern psize ssize fuel st =
        some (mainLoop str pattern psize ssize fuel st) := by
  intro fuel
  induction fuel with
  | zero =>
    intro st h0 hf
    simp only [mainLoopChecked, mainLoop]
    rw [if_neg (by intro h; have := h.2.1; omega)]
  | succ f ih =>
    intro st h0 hf
    by_cases hg : st.ok = true ∧ st.patternpos < psize ∧ st.strpos < ssize
    · have hlt := loopBody_patternpos_lt str pattern psize ssize st h0 hg.2.1
      simp only [mainLoopChecked, mainLoop, if_pos hg, loopBodyChecked_eq hps h64 str ssize st h0]
      exact ih _ (by omega) (by omega)
    · simp only [mainLoopChecked, mainLoop, if_neg hg]

/-! ## Properties of the matcher -/

/-- C1 at the subject `a\0b` and the pattern `*b`: the search of line 70 runs over the whole
string and finds the `b` that follows the terminator, so the subject fits, although the
subject cut off before its terminator does not. -/
theorem subject_after_terminator_is_searched :
    truncate ['a', NUL, 'b'] = ['a'] ∧
      StringFitsPattern ['a', NUL, 'b'] ['*', 'b'] = true ∧
      StringFitsPattern ['a'] ['*', 'b'] = false := by
  decide

/-- C2: the result for a pattern is the result for the pattern cut off just before its first
zero-value character. -/
theorem pattern_truncation (s p : List Char) :
    StringFitsPattern s p = StringFitsPattern s (truncate p) := by
  simp only [StringFitsPattern, effectiveSize_truncate]
  rw [mainLoop_congr (charAt_truncate p) s (effectiveSize s) _ _ (le_refl _)]

/-- C3: a string without `?` and `*` fits itself as a pattern; this includes the empty string
and strings with an embedded zero-value character. -/
theorem fits_self (x : List Char) (hq : '?' ∉ x) (hs : '*' ∉ x) :
    StringFitsPattern x x = true := by
  simp only [StringFitsPattern]
  have hlt : effectiveSize x < 2147483648 := by rw [effectiveSize_eq]; exact toInt32_lt _
  have hle : effectiveSize x ≤ x.length := by
    rw [effectiveSize_eq]
    have h1 := toInt32_le_self (n := (effectiveLength x : Int)) (by omega)
    have h2 := effectiveLength_le x
    omega
  by_cases h : 0 < effectiveSize x
  · obtain ⟨n, hn⟩ : ∃ n : Nat, effectiveSize x = n := ⟨(effectiveSize x).toNat, by omega⟩
    rw [hn] at h hlt hle ⊢
    have hn1 : 0 < n := by omega
    have hnl : n ≤ x.length := by omega
    have hnw : ∀ c ∈ x.take n, c ≠ '?' ∧ c ≠ '*' := by
      intro c hc
      have hcx := List.mem_of_mem_take hc
      exact ⟨fun e => hq (e ▸ hcx), fun e => hs (e ▸ hcx)⟩
    have h0l : 0 < x.length := by omega
    have hc0 : charAt x ((0 : Nat) : Int) = x[0] := charAt_natCast h0l (by omega)
    have hx0 : x[0] ∈ x.take n := by
      rw [List.mem_take_iff_getElem]
      exact ⟨0, by simp; omega, rfl⟩
    have hw : wildcardRun x (n : Int) (n : Int).toNat ⟨0, 0, 0⟩ = ⟨0, 0, 0⟩ := by
      apply wildcardRun_stop
      intro hg
      have := hnw _ hx0
      simp only [Nat.cast_zero] at hc0
      rw [hc0] at hg
      rcases hg with ⟨_, h1 | h1⟩
      · exact this.1 h1
      · exact this.2 h1
    have hl : literalRun x (n : Int) (n : Int).toNat ⟨0, [], 0⟩ = ⟨n, x.take n, n⟩ := by
      have := literalRun_all hnl (by omega) hnw n 0 [] 0 (by omega) (by omega)
      simpa using this
    have hfind : find x (x.take n) (toSize 0) = 0 := by
      rw [show toSize 0 = 0 from rfl]
      exact find_eq_of (by omega) (le_refl _) (by simpa using List.take_prefix n x)
        (fun j h1 h2 => by omega)
    rw [show (n : Int).toNat = (n - 1) + 1 by omega,
      mainLoop_step ⟨rfl, by simpa using hn1, by simpa using hn1⟩,
      loopBody_found ⟨0, 0, true⟩ (k := 0) hw hl (by simpa using hn1) hfind (le_refl _)
        (by simp) (by simp; omega) (by omega)]
    rw [mainLoop_stop (by simp)]
    simp [distanceCheck]
  · rw [mainLoop_stop (by simp; omega)]
    simp
    omega

theorem fits_self_witness :
    ('?' ∉ ['a', NUL, 'b'] ∧ '*' ∉ ['a', NUL, 'b']) ∧
      StringFitsPattern ['a', NUL, 'b'] ['a', NUL, 'b'] = true :=
  ⟨by decide, fits_self ['a', NUL, 'b'] (by decide) (by decide)⟩

/-- C4: every subject, the empty one included, fits the pattern `*`. -/
theorem fits_star (x : List Char) : StringFitsPattern x ['*'] = true := by
  have hp : effectiveSize ['*'] = 1 := by decide
  have hn : effectiveSize x < 2147483648 := by rw [effectiveSize_eq]; exact toInt32_lt _
  simp only [StringFitsPattern, hp]
  by_cases h : 0 < effectiveSize x
  · rw [show (1 : Int).toNat = 0 + 1 from rfl, mainLoop_step ⟨rfl, by decide, h⟩,
      loopBody_noLiteral (w := ⟨1, 0, -1⟩) (l := ⟨1, [], 0⟩) (by decide) (by decide) rfl rfl
        (le_refl _) (le_of_lt h) hn]
    simp [mainLoop, distanceCheck]
    omega
  · rw [mainLoop_stop (by simp; omega)]
    simp
    omega

/-- C5, as the code has it: a subject fits the pattern `?` exactly when its effective length
is 0 or 1. -/
theorem fits_question_iff (x : List Char) (hx : x.length < 2147483648) :
    StringFitsPattern x ['?'] = true ↔ effectiveLength x ≤ 1 := by
  have hp : effectiveSize ['?'] = 1 := by decide
  have hn : effectiveSize x < 2147483648 := by rw [effectiveSize_eq]; exact toInt32_lt _
  have hs := effectiveSize_of_lt hx
  simp only [StringFitsPattern, hp]
  by_cases h : 0 < effectiveSize x
  · rw [show (1 : Int).toNat = 0 + 1 from rfl, mainLoop_step ⟨rfl, by decide, h⟩,
      loopBody_noLiteral (w := ⟨1, 1, 1⟩) (l := ⟨1, [], 0⟩) (by decide) (by decide) rfl rfl
        (le_refl _) (le_of_lt h) hn]
    simp only [mainLoop, distanceCheck, lt_self_iff_false, if_false, sub_zero,
      decide_eq_true_eq]
    rw [hs]
    omega
  · rw [mainLoop_stop (by simp; omega)]
    simp only [if_neg h, true_iff]
    omega

theorem fits_question_iff_witness :
    ['x', NUL, 'y'].length < 2147483648 ∧
      (StringFitsPattern ['x', NUL, 'y'] ['?'] = true ↔ effectiveLength ['x', NUL, 'y'] ≤ 1) :=
  ⟨by decide, fits_question_iff ['x', NUL, 'y'] (by decide)⟩

/-- C5, as stated, fails: the empty subject, of effective length 0, fits the pattern `?`. -/
theorem fits_question_empty_subject :
    ¬ (StringFitsPattern [] ['?'] = true ↔ effectiveLength [] = 1) := by
  decide

/-- C6, as the code has it: the empty subject fits the pattern `a`, because the main loop is
not entered and only left-over characters of the subject are looked for after it. -/
theorem fits_empty_subject_literal : StringFitsPattern [] ['a'] = true := by
  decide

/-- C6, as stated, fails: the result for the empty subject and the pattern `a` is not
`false`. -/
theorem empty_subject_literal_not_rejected : ¬ (StringFitsPattern [] ['a'] = false) := by
  decide

/-- C7: the empty pattern fits exactly the subjects of effective length 0. -/
theorem fits_empty_pattern_iff (x : List Char) (hx : x.length < 2147483648) :
    StringFitsPattern x [] = true ↔ effectiveLength x = 0 := by
  have hp : effectiveSize [] = 0 := by decide
  simp only [StringFitsPattern, hp, effectiveSize_of_lt hx]
  rw [show (0 : Int).toNat = 0 from rfl]
  simp only [mainLoop]
  constructor
  · intro h
    split at h
    · cases h
    · omega
  · intro h
    rw [h]
    rfl

theorem fits_empty_pattern_iff_witness :
    ['a', 'b'].length < 2147483648 ∧
      (StringFitsPattern ['a', 'b'] [] = true ↔ effectiveLength ['a', 'b'] = 0) :=
  ⟨by decide, fits_empty_pattern_iff ['a', 'b'] (by decide)⟩

/-- C8, as the code has it: a subject of effective length at least 2 that starts with `a`
and whose last effective character is `b` fits `a*b` exactly when no other `b` stands between
the first character and the last effective one (the search takes the leftmost `b`). -/
theorem fits_a_star_b_iff (x : List Char) (hx : x.length < 2147483648)
    (hn : 2 ≤ effectiveLength x) (ha : x[0]? = some 'a')
    (hb : x[effectiveLength x - 1]? = some 'b') :
    StringFitsPattern x ['a', '*', 'b'] = true ↔
      ∀ i, 1 ≤ i → i < effectiveLength x - 1 → x[i]? ≠ some 'b' := by
  have hp : effectiveSize ['a', '*', 'b'] = 3 := by decide
  have hs := effectiveSize_of_lt hx
  have hle := effectiveLength_le x
  generalize hm : effectiveLength x = m at *
  -- first segment: the literal `a`, found at index 0
  have hfind1 : find x ['a'] (toSize 0) = 0 :=
    find_eq_of (by show 0 ≤ x.length; omega) (le_refl _)
      ((singleton_prefix_drop_iff _ _ _).mpr ha) (fun j h1 h2 => by omega)
  have hb1 : loopBody x ['a', '*', 'b'] 3 m ⟨0, 0, true⟩ = ⟨1, 1, true⟩ := by
    rw [loopBody_found _ (k := 0) (w := ⟨0, 0, 0⟩) (l := ⟨1, ['a'], 1⟩) (by decide) (by decide)
      (by decide) hfind1 (le_refl _) (by decide) (by decide) (by omega)]
    decide
  -- second segment: `*` and the literal `b`, found at its leftmost occurrence `k`
  have hocc : ['b'] <+: x.drop (m - 1) := (singleton_prefix_drop_iff _ _ _).mpr hb
  obtain ⟨k, hk⟩ : ∃ k, find x ['b'] (toSize 1) = k := ⟨_, rfl⟩
  have hk1 : 1 ≤ k ∧ k + 1 ≤ x.length ∧ x[k]? = some 'b' ∧
      ∀ j, 1 ≤ j → j < k → x[j]? ≠ some 'b' := by
    rcases find_spec x ['b'] 1 (by omega) with ⟨_, h⟩ | ⟨h1, h2, h3, h4⟩
    · exact absurd hocc (h (m - 1) (by omega))
    · rw [show toSize 1 = 1 from rfl] at hk
      rw [hk] at h1 h2 h3 h4
      refine ⟨h1, h2, (singleton_prefix_drop_iff _ _ _).mp h3, fun j hj1 hj2 => ?_⟩
      rw [Ne, ← singleton_prefix_drop_iff]
      exact h4 j hj1 hj2
  obtain ⟨hk1, hk2, hk3, hk4⟩ := hk1
  have hkm : k ≤ m - 1 := by
    by_contra hlt
    exact hk4 (m - 1) (by omega) (by omega) hb
  have hb2 : loopBody x ['a', '*', 'b'] 3 m ⟨1, 1, true⟩ = ⟨3, k + 1, true⟩ := by
    rw [loopBody_found _ (k := k) (w := ⟨2, 0, -1⟩) (l := ⟨3, ['b'], 1⟩) (by decide) (by decide)
      (by decide) hk (by decide) (by simpa using hk1) (by simp only []; omega) (by omega)]
    simp only [distanceCheck, State.mk.injEq, true_and, decide_eq_true_eq]
    exact ⟨by omega, Or.inl trivial⟩
  have hfinal : mainLoop x ['a', '*', 'b'] (effectiveSize ['a', '*', 'b']) (effectiveSize x)
      (effectiveSize ['a', '*', 'b']).toNat ⟨0, 0, true⟩ = ⟨3, k + 1, true⟩ := by
    rw [hp, hs, show (3 : Int).toNat = 2 + 1 from rfl,
      mainLoop_step ⟨rfl, by decide, by simp only []; omega⟩, hb1,
      mainLoop_step ⟨rfl, by decide, by simp only []; omega⟩, hb2,
      mainLoop_stop (by simp)]
  rw [fits_of_final hfinal, hs]
  simp only [Bool.if_false_left, Bool.and_true, decide_eq_true_eq, Bool.not_eq_true',
    decide_eq_false_iff_not, not_lt]
  constructor
  · intro h i hi1 hi2
    exact hk4 i hi1 (by omega)
  · intro h
    by_contra hlt
    exact h k hk1 (by omega) hk3

theorem fits_a_star_b_iff_witness :
    (['a', 'X', 'b', NUL, 'b'].length < 2147483648 ∧
      2 ≤ effectiveLength ['a', 'X', 'b', NUL, 'b'] ∧
      ['a', 'X', 'b', NUL, 'b'][0]? = some 'a' ∧
      ['a', 'X', 'b', NUL, 'b'][effectiveLength ['a', 'X', 'b', NUL, 'b'] - 1]? = some 'b') ∧
      (StringFitsPattern ['a', 'X', 'b', NUL, 'b'] ['a', '*', 'b'] = true ↔
        ∀ i, 1 ≤ i → i < effectiveLength ['a', 'X', 'b', NUL, 'b'] - 1 →
          ['a', 'X', 'b', NUL, 'b'][i]? ≠ some 'b') :=
  ⟨by decide,
    fits_a_star_b_iff ['a', 'X', 'b', NUL, 'b'] (by decide) (by decide) (by decide) (by decide)⟩

/-- C8, as stated, fails at the subject `abb`, which starts with `a`, ends with `b` and has
effective length 3: the leftmost `b` is taken and the last character is left over. -/
theorem a_star_b_rejects_abb :
    ¬ (2 ≤ effectiveLength ['a', 'b', 'b'] → ['a', 'b', 'b'][0]? = some 'a' →
        ['a', 'b', 'b'][effectiveLength ['a', 'b', 'b'] - 1]? = some 'b' →
        StringFitsPattern ['a', 'b', 'b'] ['a', '*', 'b'] = true) := by
  decide

/-- The pattern `a??b` on a subject without terminator, in terms of indices. -/
theorem fits_a_qq_b_index (x : List Char) (hx : x.length < 2147483648) (hz : NUL ∉ x)
    (hn : 1 ≤ x.length) :
    StringFitsPattern x ['a', '?', '?', 'b'] = true ↔
      x[0]? = some 'a' ∧ (x.length = 1 ∨
        (x.length = 4 ∧ x[3]? = some 'b' ∧ x[1]? ≠ some 'b' ∧ x[2]? ≠ some 'b')) := by
  have hp : effectiveSize ['a', '?', '?', 'b'] = 4 := by decide
  have hs := effectiveSize_of_no_nul hz hx
  have hw1 : wildcardRun ['a', '?', '?', 'b'] 4 (4 : Int).toNat ⟨0, 0, 0⟩ = ⟨0, 0, 0⟩ := by decide
  have hl1 : literalRun ['a', '?', '?', 'b'] 4 (4 : Int).toNat ⟨0, [], 0⟩ = ⟨1, ['a'], 1⟩ := by
    decide
  have hw2 : wildcardRun ['a', '?', '?', 'b'] 4 (4 : Int).toNat ⟨1, 0, 0⟩ = ⟨3, 2, 2⟩ := by decide
  have hl2 : literalRun ['a', '?', '?', 'b'] 4 (4 : Int).toNat ⟨3, [], 0⟩ = ⟨4, ['b'], 1⟩ := by
    decide
  have hg0 : (true = true ∧ (0 : Int) < 4 ∧ (0 : Int) < (x.length : Int)) :=
    ⟨rfl, by decide, by omega⟩
  rcases find_spec x ['a'] 0 (by omega) with ⟨hnf, hno⟩ | ⟨_, hk2, hk3, hk4⟩
  · -- the literal `a` is not found
    have hbody := loopBody_notFound x (x.length : Int) ⟨0, 0, true⟩
      hw1 hl1 (by decide) hnf (le_refl _) (by decide) (le_refl _)
    have hfinal : mainLoop x ['a', '?', '?', 'b'] (effectiveSize ['a', '?', '?', 'b'])
        (effectiveSize x) (effectiveSize ['a', '?', '?', 'b']).toNat ⟨0, 0, true⟩ =
        loopBody x ['a', '?', '?', 'b'] 4 x.length ⟨0, 0, true⟩ := by
      rw [hp, hs, show (4 : Int).toNat = 3 + 1 from rfl, mainLoop_step hg0,
        mainLoop_of_not_ok hbody.1]
    rw [fits_of_final hfinal, hbody.1]
    have h0 : x[0]? ≠ some 'a' := by
      rw [Ne, ← singleton_prefix_drop_iff]
      exact hno 0 (le_refl _)
    simp [h0]
  · obtain ⟨k, hk⟩ : ∃ k, find x ['a'] 0 = k := ⟨_, rfl⟩
    rw [hk] at hk2 hk3 hk4
    rw [singleton_prefix_drop_iff] at hk3
    have hb1 : loopBody x ['a', '?', '?', 'b'] 4 x.length ⟨0, 0, true⟩ =
        ⟨1, k + 1, distanceCheck ⟨0, 0, 0⟩ (k - 0)⟩ :=
      loopBody_found _ (k := k) hw1 hl1 (by decide) hk (le_refl _) (by simp)
        (by simp only [List.length_singleton] at hk2; simp only []; omega)
        (by simp only [List.length_singleton] at hk2; omega)
    rcases Nat.eq_zero_or_pos k with hk0 | hkpos
    · subst hk0
      have hb1q : loopBody x ['a', '?', '?', 'b'] 4 x.length ⟨0, 0, true⟩ = ⟨1, 1, true⟩ := by
        rw [hb1]; decide
      rcases Nat.lt_or_ge 1 x.length with hn2 | hn1
      · -- a second execution of the body, for `??b`
        have hg1 : ((⟨1, 1, true⟩ : State).ok = true ∧ (⟨1, 1, true⟩ : State).patternpos < 4 ∧
            (⟨1, 1, true⟩ : State).strpos < (x.length : Int)) :=
          ⟨rfl, by decide, by simp only []; omega⟩
        rcases find_spec x ['b'] 1 (by omega) with ⟨hnf, hno⟩ | ⟨hj1, hj2, hj3, hj4⟩
        · have hbody := loopBody_notFound x (x.length : Int)
            ⟨1, 1, true⟩ hw2 hl2 (by decide) hnf (by decide) (by decide) (by decide)
          have hfinal : mainLoop x ['a', '?', '?', 'b'] (effectiveSize ['a', '?', '?', 'b'])
              (effectiveSize x) (effectiveSize ['a', '?', '?', 'b']).toNat ⟨0, 0, true⟩ =
              loopBody x ['a', '?', '?', 'b'] 4 x.length ⟨1, 1, true⟩ := by
            rw [hp, hs, show (4 : Int).toNat = 2 + 1 + 1 from rfl, mainLoop_step hg0, hb1q,
              mainLoop_step hg1, mainLoop_of_not_ok hbody.1]
          rw [fits_of_final hfinal, hbody.1]
          have h3 : x[3]? ≠ some 'b' := by
            rw [Ne, ← singleton_prefix_drop_iff]
            exact hno 3 (by omega)
          simp only [ite_self, Bool.false_eq_true, false_iff]
          rintro ⟨_, h | ⟨_, h, _⟩⟩
          · omega
          · exact absurd h h3
        · obtain ⟨j, hj⟩ : ∃ j, find x ['b'] 1 = j := ⟨_, rfl⟩
          rw [hj] at hj1 hj2 hj3 hj4
          rw [singleton_prefix_drop_iff] at hj3
          simp only [List.length_singleton] at hj2
          have hb2 : loopBody x ['a', '?', '?', 'b'] 4 x.length ⟨1, 1, true⟩ =
              ⟨4, j + 1, distanceCheck ⟨3, 2, 2⟩ (j - 1)⟩ :=
            loopBody_found _ (k := j) hw2 hl2 (by decide) hj (by decide) (by simpa using hj1)
              (by simp only []; omega) (by omega)
          have hfinal : mainLoop x ['a', '?', '?', 'b'] (effectiveSize ['a', '?', '?', 'b'])
              (effectiveSize x) (effectiveSize ['a', '?', '?', 'b']).toNat ⟨0, 0, true⟩ =
              ⟨4, j + 1, distanceCheck ⟨3, 2, 2⟩ (j - 1)⟩ := by
            rw [hp, hs, show (4 : Int).toNat = 2 + 1 + 1 from rfl, mainLoop_step hg0, hb1q,
              mainLoop_step hg1, hb2, mainLoop_stop (by simp)]
          rw [fits_of_final hfinal, hs]
          simp only [distanceCheck, Bool.if_false_left, Bool.and_eq_true, Bool.not_eq_true',
            decide_eq_false_iff_not, not_lt, decide_eq_true_eq]
          constructor
          · rintro ⟨h1, h2, h3⟩
            have hj3q : j = 3 := by omega
            subst hj3q
            refine ⟨hk3, Or.inr ⟨by omega, hj3, ?_, ?_⟩⟩
            · rw [Ne, ← singleton_prefix_drop_iff]
              exact hj4 1 (by omega) (by omega)
            · rw [Ne, ← singleton_prefix_drop_iff]
              exact hj4 2 (by omega) (by omega)
          · rintro ⟨_, h | ⟨h4, h3, h1, h2⟩⟩
            · omega
            · have hj3q : j = 3 := by
                rcases Nat.lt_or_ge j 3 with hlt | hge
                · have : j = 1 ∨ j = 2 := by omega
                  rcases this with e | e
                  · rw [e] at hj3; exact absurd hj3 h1
                  · rw [e] at hj3; exact absurd hj3 h2
                · omega
              subst hj3q
              exact ⟨by omega, by omega, Or.inr (by omega)⟩
      · -- the subject is `a`
        have hfinal : mainLoop x ['a', '?', '?', 'b'] (effectiveSize ['a', '?', '?', 'b'])
            (effectiveSize x) (effectiveSize ['a', '?', '?', 'b']).toNat ⟨0, 0, true⟩ =
            ⟨1, 1, true⟩ := by
          rw [hp, hs, show (4 : Int).toNat = 3 + 1 from rfl, mainLoop_step hg0, hb1q,
            mainLoop_stop (by simp only [not_and, not_lt]; intro _ _; omega)]
        rw [fits_of_final hfinal, hs]
        have : x.length = 1 := by omega
        simp [this, hk3]
    · -- the leftmost `a` is not the first character
      have hok : (loopBody x ['a', '?', '?', 'b'] 4 x.length ⟨0, 0, true⟩).ok = false := by
        rw [hb1]
        simp only [distanceCheck, decide_eq_false_iff_not, not_and, not_or]
        intro _
        exact ⟨by decide, by omega⟩
      have hfinal : mainLoop x ['a', '?', '?', 'b'] (effectiveSize ['a', '?', '?', 'b'])
          (effectiveSize x) (effectiveSize ['a', '?', '?', 'b']).toNat ⟨0, 0, true⟩ =
          loopBody x ['a', '?', '?', 'b'] 4 x.length ⟨0, 0, true⟩ := by
        rw [hp, hs, show (4 : Int).toNat = 3 + 1 from rfl, mainLoop_step hg0,
          mainLoop_of_not_ok hok]
      rw [fits_of_final hfinal, hok]
      have h0 : x[0]? ≠ some 'a' := by
        rw [Ne, ← singleton_prefix_drop_iff]
        exact hk4 0 (le_refl _) hkpos
      simp [h0]

/-- C9, as the code has it, for subjects without a zero-value character: such a subject
fits `a??b` exactly when it is empty, or is `a`, or is `a`, two characters other than `b`,
and `b`. -/
theorem fits_a_qq_b_iff (x : List Char) (hx : x.length < 2147483648) (hz : NUL ∉ x) :
    StringFitsPattern x ['a', '?', '?', 'b'] = true ↔
      x = [] ∨ x = ['a'] ∨ ∃ c₁ c₂, c₁ ≠ 'b' ∧ c₂ ≠ 'b' ∧ x = ['a', c₁, c₂, 'b'] := by
  rcases x with _ | ⟨x0, _ | ⟨x1, _ | ⟨x2, _ | ⟨x3, _ | ⟨x4, rest⟩⟩⟩⟩⟩
  · simp only [true_or, iff_true]
    decide
  · rw [fits_a_qq_b_index _ hx hz (by simp)]
    simp
  · rw [fits_a_qq_b_index _ hx hz (by simp)]
    simp
  · rw [fits_a_qq_b_index _ hx hz (by simp)]
    simp
  · rw [fits_a_qq_b_index _ hx hz (by simp)]
    simp only [List.length_cons, List.length_nil, List.getElem?_cons_zero,
      List.getElem?_cons_succ, Option.some.injEq, reduceCtorEq, false_or, List.cons.injEq,
      and_true, ne_eq, Nat.reduceAdd, OfNat.ofNat_ne_one, true_and, and_false]
    constructor
    · rintro ⟨h0, h3, h1, h2⟩
      exact ⟨x1, x2, h1, h2, h0, rfl, rfl, h3⟩
    · rintro ⟨c₁, c₂, h1, h2, h0, e1, e2, h3⟩
      subst e1 e2
      exact ⟨h0, h3, h1, h2⟩
  · rw [fits_a_qq_b_index _ hx hz (by simp)]
    simp

theorem fits_a_qq_b_iff_witness :
    (['a', 'X', 'Y', 'b'].length < 2147483648 ∧ NUL ∉ ['a', 'X', 'Y', 'b']) ∧
      (StringFitsPattern ['a', 'X', 'Y', 'b'] ['a', '?', '?', 'b'] = true ↔
        ['a', 'X', 'Y', 'b'] = [] ∨ ['a', 'X', 'Y', 'b'] = ['a'] ∨
          ∃ c₁ c₂, c₁ ≠ 'b' ∧ c₂ ≠ 'b' ∧ ['a', 'X', 'Y', 'b'] = ['a', c₁, c₂, 'b']) :=
  ⟨by decide, fits_a_qq_b_iff ['a', 'X', 'Y', 'b'] (by decide) (by decide)⟩

/-- C9, as stated, fails in both directions: the subject `a` fits `a??b` although its
effective length is 1, and the subject `abcb`, made of `a`, two characters and `b`, does not
fit, the leftmost `b` being too close to the `a`. -/
theorem a_qq_b_short_and_leftmost :
    ¬ (StringFitsPattern ['a'] ['a', '?', '?', 'b'] = true ↔
        (effectiveLength ['a'] = 4 ∧ ['a'][0]? = some 'a' ∧ ['a'][3]? = some 'b')) ∧
    ¬ (StringFitsPattern ['a', 'b', 'c', 'b'] ['a', '?', '?', 'b'] = true ↔
        (effectiveLength ['a', 'b', 'c', 'b'] = 4 ∧ ['a', 'b', 'c', 'b'][0]? = some 'a' ∧
          ['a', 'b', 'c', 'b'][3]? = some 'b')) := by
  decide

/-- C10: there are a subject and a pattern that match under the reference semantics and that
`StringFitsPattern` rejects, the body of the main loop being run at a state `st` where the
literal of the segment is found, its leftmost occurrence fails the distance check, the loop is
left with `ok` false, and a later occurrence `k` would have passed the check.  The pair `abab`
and `*ab` of the specification matches under the reference semantics and is rejected too. -/
theorem greedy_leftmost_rejects_reference_match :
    (globMatch ['*', 'a', 'b'] ['a', 'b', 'a', 'b'] = true ∧
      StringFitsPattern ['a', 'b', 'a', 'b'] ['*', 'a', 'b'] = false) ∧
    ∃ str pattern : List Char,
      globMatch pattern str = true ∧ StringFitsPattern str pattern = false ∧
      ∃ n k : Nat,
        let psize := effectiveSize pattern
        let ssize := effectiveSize str
        let st := mainLoop str pattern psize ssize n ⟨0, 0, true⟩
        let w := wildcardRun pattern psize psize.toNat ⟨st.patternpos, 0, 0⟩
        let l := literalRun pattern psize psize.toNat ⟨w.patternpos, [], 0⟩
        let foundpos := find str l.nextpart (toSize st.strpos)
        (st.ok = true ∧ st.patternpos < psize ∧ st.strpos < ssize) ∧
        l.nextpartsize ≠ 0 ∧ foundpos ≠ npos ∧
        distanceCheck w (foundpos - st.strpos) = false ∧
        (loopBody str pattern psize ssize st).ok = false ∧
        foundpos < k ∧ l.nextpart.isPrefixOf (str.drop k) = true ∧
        distanceCheck w (k - st.strpos) = true := by
  refine ⟨by decide, ['a', 'b', 'c', 'b'], ['a', '?', '?', 'b'], by decide, by decide, 1, 3, ?_⟩
  decide

/-- C11: for strings whose sizes fit in an `int`, the function with every read checked
against the size of its string and every loop bound reported returns a boolean, the one that
`StringFitsPattern` computes: no read is out of range and every loop runs to its end. -/
theorem checked_run_returns (str pattern : List Char) (hp : pattern.length < 2147483648)
    (hs : str.length < 2147483648) :
    StringFitsPatternChecked str pattern = some (StringFitsPattern str pattern) := by
  unfold StringFitsPatternChecked
  rw [effectiveSizeChecked_eq pattern hp, effectiveSizeChecked_eq str hs]
  simp only []
  rw [mainLoopChecked_eq (effectiveSize_le_length pattern) (by omega) str (effectiveSize str)
    (effectiveSize pattern).toNat ⟨0, 0, true⟩ (le_refl _) (by simp only []; omega)]
  rfl

theorem checked_run_returns_witness :
    (['*', '?', NUL, 'a'].length < 2147483648 ∧ ['x', 'y', NUL].length < 2147483648) ∧
      StringFitsPatternChecked ['x', 'y', NUL] ['*', '?', NUL, 'a'] =
        some (StringFitsPattern ['x', 'y', NUL] ['*', '?', NUL, 'a']) :=
  ⟨by decide, checked_run_returns ['x', 'y', NUL] ['*', '?', NUL, 'a'] (by decide) (by decide)⟩

/-- C12: in a run of `StringFitsPattern`, every execution of the body of the main loop
increases the pattern cursor by at least 1; the body is executed at most as many times as the
effective length of the pattern, whatever bound on the iterations is given; and the loop, given
`patternsize` iterations, ends with its condition false. -/
theorem pattern_cursor_advances (str pattern : List Char) :
    (∀ n : Nat,
      let st := mainLoop str pattern (effectiveSize pattern) (effectiveSize str) n ⟨0, 0, true⟩
      (st.ok = true ∧ st.patternpos < effectiveSize pattern ∧
          st.strpos < effectiveSize str) →
        st.patternpos + 1 ≤
          (loopBody str pattern (effectiveSize pattern) (effectiveSize str) st).patternpos) ∧
    (∀ fuel : Nat,
      bodyExecutions str pattern (effectiveSize pattern) (effectiveSize str) fuel ⟨0, 0, true⟩ ≤
        effectiveLength pattern) ∧
    ¬ ((mainLoop str pattern (effectiveSize pattern) (effectiveSize str)
          (effectiveSize pattern).toNat ⟨0, 0, true⟩).ok = true ∧
        (mainLoop str pattern (effectiveSize pattern) (effectiveSize str)
          (effectiveSize pattern).toNat ⟨0, 0, true⟩).patternpos < effectiveSize pattern ∧
        (mainLoop str pattern (effectiveSize pattern) (effectiveSize str)
          (effectiveSize pattern).toNat ⟨0, 0, true⟩).strpos < effectiveSize str) := by
  refine ⟨?_, ?_, ?_⟩
  · intro n st hg
    have h0 := mainLoop_patternpos_le str pattern (effectiveSize pattern) (effectiveSize str) n
      ⟨0, 0, true⟩
    have := loopBody_patternpos_lt str pattern (effectiveSize pattern) (effectiveSize str) st
      h0 hg.2.1
    omega
  · intro fuel
    have h1 := bodyExecutions_le str pattern (effectiveSize pattern) (effectiveSize str) fuel
      ⟨0, 0, true⟩ (le_refl _)
    have h2 := effectiveSize_toNat_le pattern
    simp only [sub_zero] at h1
    omega
  · exact mainLoop_exit str pattern (effectiveSize pattern) (effectiveSize str) _ ⟨0, 0, true⟩
      (le_refl _) (by simp only []; omega)

theorem pattern_cursor_advances_witness :
    ((mainLoop ['a', 'x', 'b', 'c'] ['a', '?', 'b', '*'] (effectiveSize ['a', '?', 'b', '*'])
          (effectiveSize ['a', 'x', 'b', 'c']) 1 ⟨0, 0, true⟩).ok = true ∧
      (mainLoop ['a', 'x', 'b', 'c'] ['a', '?', 'b', '*'] (effectiveSize ['a', '?', 'b', '*'])
          (effectiveSize ['a', 'x', 'b', 'c']) 1 ⟨0, 0, true⟩).patternpos <
        effectiveSize ['a', '?', 'b', '*'] ∧
      (mainLoop ['a', 'x', 'b', 'c'] ['a', '?', 'b', '*'] (effectiveSize ['a', '?', 'b', '*'])
          (effectiveSize ['a', 'x', 'b', 'c']) 1 ⟨0, 0, true⟩).strpos <
        effectiveSize ['a', 'x', 'b', 'c']) ∧
    (mainLoop ['a', 'x', 'b', 'c'] ['a', '?', 'b', '*'] (effectiveSize ['a', '?', 'b', '*'])
        (effectiveSize ['a', 'x', 'b', 'c']) 1 ⟨0, 0, true⟩).patternpos + 1 ≤
      (loopBody ['a', 'x', 'b', 'c'] ['a', '?', 'b', '*'] (effectiveSize ['a', '?', 'b', '*'])
        (effectiveSize ['a', 'x', 'b', 'c'])
        (mainLoop ['a', 'x', 'b', 'c'] ['a', '?', 'b', '*'] (effectiveSize ['a', '?', 'b', '*'])
          (effectiveSize ['a', 'x', 'b', 'c']) 1 ⟨0, 0, true⟩)).patternpos ∧
    bodyExecutions ['a', 'x', 'b', 'c'] ['a', '?', 'b', '*'] (effectiveSize ['a', '?', 'b', '*'])
        (effectiveSize ['a', 'x', 'b', 'c']) 10 ⟨0, 0, true⟩ ≤
      effectiveLength ['a', '?', 'b', '*'] :=
  ⟨by decide,
    (pattern_cursor_advances ['a', 'x', 'b', 'c'] ['a', '?', 'b', '*']).1 1 (by decide),
    (pattern_cursor_advances ['a', 'x', 'b', 'c'] ['a', '?', 'b', '*']).2.1 10⟩

/-- C13: for a terminator-free pattern `W ++ L ++ R`, with `W` a run of `?` and `*`, `L` the
non-empty maximal run of literal characters after it and `R` the rest, a subject of effective
length at least 1 in which `L` does not occur does not fit. -/
theorem literal_not_found_rejects (W L R str : List Char)
    (hW : ∀ c ∈ W, c = '?' ∨ c = '*') (hL : ∀ c ∈ L, c ≠ '?' ∧ c ≠ '*') (hLne : L ≠ [])
    (hR : ∀ c, R.head? = some c → c = '?' ∨ c = '*')
    (hnul : NUL ∉ W ++ L ++ R) (hplen : (W ++ L ++ R).length < 2147483648)
    (hslen : str.length < 2147483648) (hn : 1 ≤ effectiveLength str)
    (hno : ¬ L <:+: str) :
    StringFitsPattern str (W ++ L ++ R) = false := by
  rw [List.append_assoc] at hnul hplen ⊢
  have hp := effectiveSize_of_no_nul hnul hplen
  have hs := effectiveSize_of_lt hslen
  have hlen : (W ++ (L ++ R)).length = W.length + L.length + R.length := by
    simp only [List.length_append]; omega
  obtain ⟨c, L2, rfl⟩ : ∃ c L2, L = c :: L2 := List.exists_cons_of_ne_nil hLne
  have hw := wildcardRun_append W (c :: L2 ++ R) (W ++ (c :: L2 ++ R)).length hW []
    (W ++ (c :: L2 ++ R)).length 0 0
    (Or.inr ⟨c, L2 ++ R, rfl, hL c (List.mem_cons_self _ _)⟩)
    (by simp only [List.length_nil]; omega)
    (by simp only [List.nil_append]; omega) (by omega)
  have hl := literalRun_append (c :: L2) R (W ++ (c :: L2 ++ R)).length hL W
    (W ++ (c :: L2 ++ R)).length [] 0
    (by
      cases R with
      | nil => left; simp
      | cons r Z => exact Or.inr ⟨r, Z, rfl, hR r rfl⟩)
    (by omega) (by omega) (by omega)
  simp only [List.nil_append, List.length_nil, Nat.zero_add, Nat.cast_zero, zero_add] at hw hl
  have hlpos : 0 < (W ++ (c :: L2 ++ R)).length := by
    rw [hlen]; simp only [List.length_cons]; omega
  generalize W ++ (c :: L2 ++ R) = P at *
  have hfind : find str (c :: L2) (toSize 0) = npos :=
    find_eq_npos_of_not_infix 0 (Nat.zero_le _) hno
  have hbody := @loopBody_notFound P (effectiveSize P) str (effectiveSize str) ⟨0, 0, true⟩
    ⟨W.length, (W.count '?' : Nat), if '*' ∈ W then -1 else if (0 : Int) ≤ 0 then
      (W.length : Int) else 0⟩
    ⟨((W.length + (c :: L2).length : Nat) : Int), c :: L2, ((c :: L2).length : Nat)⟩
    (by rw [hp, Int.toNat_natCast]; exact hw) (by rw [hp, Int.toNat_natCast]; exact hl)
    (by simp only [List.length_cons]; omega)
    hfind (le_refl _) (by decide) (by simp only []; omega)
  exact fits_false_of_first_body (by rw [hp]; omega) (by rw [hs]; omega) hbody.1

theorem literal_not_found_rejects_witness :
    ((∀ c ∈ ['*', '?'], c = '?' ∨ c = '*') ∧ ¬ ['a', 'b'] <:+: ['a', 'x', 'b', 'a']) ∧
      StringFitsPattern ['a', 'x', 'b', 'a'] (['*', '?'] ++ ['a', 'b'] ++ ['*', 'c']) = false :=
  ⟨by decide, literal_not_found_rejects ['*', '?'] ['a', 'b'] ['*', 'c'] ['a', 'x', 'b', 'a']
    (by decide) (by decide) (by decide) (by decide) (by decide) (by decide) (by decide)
    (by decide) (by decide)⟩

/-- C14: a subject of effective length `n ≥ 1` fits a non-empty pattern made of `?` and `*`
only, with `k` characters `?`, exactly when `k ≤ n` and the pattern has a `*` or `n = k`. -/
theorem wildcards_only_iff (W str : List Char) (hW : ∀ c ∈ W, c = '?' ∨ c = '*')
    (hWne : W ≠ []) (hplen : W.length < 2147483648) (hslen : str.length < 2147483648)
    (hn : 1 ≤ effectiveLength str) :
    StringFitsPattern str W = true ↔
      W.count '?' ≤ effectiveLength str ∧ ('*' ∈ W ∨ effectiveLength str = W.count '?') := by
  have hnul : NUL ∉ W := by
    intro h
    rcases hW _ h with e | e
    · exact absurd e (by decide)
    · exact absurd e (by decide)
  have hp := effectiveSize_of_no_nul hnul hplen
  have hs := effectiveSize_of_lt hslen
  have hlpos : 0 < W.length := List.length_pos.mpr hWne
  have hle := effectiveLength_le str
  have hw := wildcardRun_append W [] W.length hW [] W.length 0 0 (Or.inl (by simp))
    (by simp) (by simp; omega) (le_refl _)
  have hl := literalRun_append [] [] W.length (by simp) W W.length [] 0 (Or.inl (by simp))
    (by simp) (by simp; omega) (by simp)
  simp only [List.nil_append, List.append_nil, List.length_nil, Nat.zero_add, Nat.add_zero,
    Nat.cast_zero, zero_add, add_zero, le_refl, if_true] at hw hl
  have hbody : loopBody str W (effectiveSize W) (effectiveSize str) ⟨0, 0, true⟩ =
      ⟨W.length, effectiveLength str,
        distanceCheck ⟨W.length, (W.count '?' : Nat), if '*' ∈ W then -1 else (W.length : Int)⟩
          ((effectiveLength str : Int) - 0)⟩ := by
    rw [hp, hs]
    exact @loopBody_noLiteral str W W.length (effectiveLength str) ⟨0, 0, true⟩
      ⟨W.length, (W.count '?' : Nat), if '*' ∈ W then -1 else (W.length : Int)⟩
      ⟨W.length, [], 0⟩ (by rw [Int.toNat_natCast]; exact hw)
      (by rw [Int.toNat_natCast]; exact hl) rfl rfl (le_refl _) (by simp only []; omega)
      (by omega)
  rw [fits_of_first_body (by rw [hp]; omega) (by rw [hs]; omega) hbody
    (by simp only [hp, lt_self_iff_false, false_and, and_false, not_false_eq_true]),
    if_neg (by simp only [hs, lt_self_iff_false, not_false_eq_true])]
  simp only [distanceCheck, sub_zero, decide_eq_true_eq, Nat.cast_le]
  by_cases hstar : '*' ∈ W
  · simp only [hstar, if_true, true_or, and_true]
  · have hcount : W.count '?' = W.length := by
      rw [List.count_eq_length]
      intro b hb
      rcases hW b hb with e | e
      · exact e.symm
      · exact absurd (e ▸ hb) hstar
    simp only [hstar, if_false, false_or, hcount, Nat.cast_le]
    constructor
    · rintro ⟨h1, h2 | h2⟩
      · omega
      · exact ⟨h1, by omega⟩
    · rintro ⟨h1, h2⟩
      exact ⟨h1, Or.inr (by omega)⟩

theorem wildcards_only_iff_witness :
    ((∀ c ∈ ['?', '*', '?'], c = '?' ∨ c = '*') ∧ 1 ≤ effectiveLength ['x', 'y', 'z']) ∧
      (StringFitsPattern ['x', 'y', 'z'] ['?', '*', '?'] = true ↔
        ['?', '*', '?'].count '?' ≤ effectiveLength ['x', 'y', 'z'] ∧
          ('*' ∈ ['?', '*', '?'] ∨ effectiveLength ['x', 'y', 'z'] = ['?', '*', '?'].count '?')) :=
  ⟨by decide, wildcards_only_iff ['?', '*', '?'] ['x', 'y', 'z'] (by decide) (by decide)
    (by decide) (by decide) (by decide)⟩

/-- C15: in the pattern `*a?b` the `*` of the first segment does not relax the `?` of the
second: for `x` and `y` without `a`, `b`, `?`, `*` and the zero character, the subject
`x ++ "a" ++ y ++ "b"` fits exactly when `y` has length 1. -/
theorem segment_bounds_reset (x y : List Char)
    (hx : ∀ c ∈ x, c ≠ 'a' ∧ c ≠ 'b' ∧ c ≠ '?' ∧ c ≠ '*' ∧ c ≠ NUL)
    (hy : ∀ c ∈ y, c ≠ 'a' ∧ c ≠ 'b' ∧ c ≠ '?' ∧ c ≠ '*' ∧ c ≠ NUL)
    (hlen : (x ++ ['a'] ++ y ++ ['b']).length < 2147483648) :
    StringFitsPattern (x ++ ['a'] ++ y ++ ['b']) ['*', 'a', '?', 'b'] = true ↔
      y.length = 1 := by
  have hp : effectiveSize ['*', 'a', '?', 'b'] = 4 := by decide
  have hax : 'a' ∉ x := fun h => (hx _ h).1 rfl
  have hby : 'b' ∉ y := fun h => (hy _ h).2.1 rfl
  have hz : NUL ∉ x ++ ['a'] ++ y ++ ['b'] := by
    simp only [List.mem_append, List.mem_singleton, not_or]
    exact ⟨⟨⟨fun h => (hx _ h).2.2.2.2 rfl, by decide⟩, fun h => (hy _ h).2.2.2.2 rfl⟩,
      by decide⟩
  have hs := effectiveSize_of_no_nul hz hlen
  have hf1 : find (x ++ ['a'] ++ y ++ ['b']) ['a'] (toSize 0) = x.length := by
    have := find_singleton_append [] x (y ++ ['b']) 'a' hax
    simpa using this
  have hf2 : find (x ++ ['a'] ++ y ++ ['b']) ['b'] (toSize ((x.length : Int) + 1)) =
      x.length + 1 + y.length := by
    have := find_singleton_append (x ++ ['a']) y [] 'b' hby
    rw [show ((x.length : Int) + 1) = ((x.length + 1 : Nat) : Int) by rfl,
      toSize_natCast (by simp at hlen; omega)]
    simpa using this
  generalize hstr : x ++ ['a'] ++ y ++ ['b'] = str at *
  have hl : str.length = x.length + y.length + 2 := by
    rw [← hstr]; simp; omega
  have hb1 : loopBody str ['*', 'a', '?', 'b'] 4 str.length ⟨0, 0, true⟩ =
      ⟨2, x.length + 1, true⟩ := by
    rw [loopBody_found _ (k := x.length) (w := ⟨1, 0, -1⟩) (l := ⟨2, ['a'], 1⟩) (by decide)
      (by decide) (by decide) hf1 (le_refl _) (by simp) (by simp only []; omega) (by omega)]
    simp [distanceCheck]
  have hb2 : loopBody str ['*', 'a', '?', 'b'] 4 str.length ⟨2, x.length + 1, true⟩ =
      ⟨4, x.length + 1 + y.length + 1, decide (y.length = 1)⟩ := by
    have hw2 : wildcardRun ['*', 'a', '?', 'b'] 4 (4 : Int).toNat ⟨2, 0, 0⟩ = ⟨3, 1, 1⟩ := by
      decide
    rw [loopBody_found _ (k := x.length + 1 + y.length) (w := ⟨3, 1, 1⟩) (l := ⟨4, ['b'], 1⟩)
      hw2 (by decide) (by decide) hf2 (by simp only []; omega)
      (by simp only []; omega) (by simp only []; omega) (by omega)]
    simp only [distanceCheck, State.mk.injEq, true_and, decide_eq_decide]
    refine ⟨by push_cast; ring, ?_⟩
    constructor
    · rintro ⟨h1, h2 | h2⟩
      · omega
      · omega
    · intro h
      exact ⟨by omega, Or.inr (by omega)⟩
  have hfinal : mainLoop str ['*', 'a', '?', 'b'] (effectiveSize ['*', 'a', '?', 'b'])
      (effectiveSize str) (effectiveSize ['*', 'a', '?', 'b']).toNat ⟨0, 0, true⟩ =
      ⟨4, x.length + 1 + y.length + 1, decide (y.length = 1)⟩ := by
    rw [hp, hs, show (4 : Int).toNat = 2 + 1 + 1 from rfl,
      mainLoop_step ⟨rfl, by decide, by simp only []; omega⟩, hb1,
      mainLoop_step ⟨rfl, by norm_num, by simp only []; omega⟩, hb2,
      mainLoop_stop (by simp)]
  rw [fits_of_final hfinal, hs, if_neg (by simp only []; omega)]
  simp

theorem segment_bounds_reset_witness :
    ((∀ c ∈ ['x', 'y'], c ≠ 'a' ∧ c ≠ 'b' ∧ c ≠ '?' ∧ c ≠ '*' ∧ c ≠ NUL) ∧
      (∀ c ∈ ['z', 'z'], c ≠ 'a' ∧ c ≠ 'b' ∧ c ≠ '?' ∧ c ≠ '*' ∧ c ≠ NUL)) ∧
      (StringFitsPattern (['x', 'y'] ++ ['a'] ++ ['z', 'z'] ++ ['b']) ['*', 'a', '?', 'b'] = true ↔
        ['z', 'z'].length = 1) :=
  ⟨by decide, segment_bounds_reset ['x', 'y'] ['z', 'z'] (by decide) (by decide) (by decide)⟩

/-- C16 at the subject `xxa` and the pattern `x?b`: the second execution of the loop body
starts with `strpos = 1`, does not find the literal `b`, and ends with `strpos = 0`.  The
pattern cursor goes from 1 to 3. -/
theorem subject_cursor_decreases_when_not_found :
    effectiveSize ['x', '?', 'b'] = 3 ∧ effectiveSize ['x', 'x', 'a'] = 3 ∧
      mainLoop ['x', 'x', 'a'] ['x', '?', 'b'] 3 3 1 ⟨0, 0, true⟩ = ⟨1, 1, true⟩ ∧
      find ['x', 'x', 'a'] ['b'] (toSize 1) = npos ∧
      loopBody ['x', 'x', 'a'] ['x', '?', 'b'] 3 3 ⟨1, 1, true⟩ = ⟨3, 0, false⟩ ∧
      StringFitsPattern ['x', 'x', 'a'] ['x', '?', 'b'] = false := by
  decide

/-- C17: a pattern without `?`, `*` and zero character is anchored at both ends: a non-empty
subject without zero character fits it exactly when the two are equal. -/
theorem literal_pattern_iff (s p : List Char) (hp : ∀ c ∈ p, c ≠ '?' ∧ c ≠ '*' ∧ c ≠ NUL)
    (hs : NUL ∉ s) (hs1 : 1 ≤ s.length) (hslen : s.length < 2147483648)
    (hplen : p.length < 2147483648) :
    StringFitsPattern s p = true ↔ s = p := by
  have hpnul : NUL ∉ p := fun h => (hp _ h).2.2 rfl
  have hps := effectiveSize_of_no_nul hpnul hplen
  have hss := effectiveSize_of_no_nul hs hslen
  by_cases hne : p = []
  · subst hne
    have hfinal : mainLoop s [] (effectiveSize []) (effectiveSize s) (effectiveSize []).toNat
        ⟨0, 0, true⟩ = ⟨0, 0, true⟩ := mainLoop_stop (by rw [hps]; simp) _
    rw [fits_of_final hfinal, hss, if_pos (by simp only []; omega)]
    constructor
    · intro h; cases h
    · intro h; rw [h] at hs1; simp at hs1
  · obtain ⟨c, p2, hq⟩ : ∃ c p2, p = c :: p2 := List.exists_cons_of_ne_nil hne
    have hc := hp c (by rw [hq]; exact List.mem_cons_self _ _)
    have hqpos : 0 < p.length := List.length_pos.mpr hne
    have hw := wildcardRun_append [] p p.length (by simp) [] p.length
      0 0 (Or.inr ⟨c, p2, hq, hc.1, hc.2.1⟩) (by simp) (by simp; omega) (by simp)
    have hl := literalRun_append p [] p.length
      (fun d hd => ⟨(hp d hd).1, (hp d hd).2.1⟩) [] p.length [] 0 (Or.inl (by simp))
      (by simp) (by simp; omega) (le_refl _)
    simp only [List.nil_append, List.append_nil, List.length_nil, Nat.zero_add, Nat.add_zero,
      Nat.cast_zero, zero_add, add_zero, le_refl, if_true, List.not_mem_nil, if_false,
      List.count_nil] at hw hl
    generalize p = q at *
    have hw2 : wildcardRun q (effectiveSize q) (effectiveSize q).toNat ⟨0, 0, 0⟩ = ⟨0, 0, 0⟩ := by
      rw [hps, Int.toNat_natCast]; exact hw
    have hl2 : literalRun q (effectiveSize q) (effectiveSize q).toNat ⟨0, [], 0⟩ =
        ⟨q.length, q, q.length⟩ := by
      rw [hps, Int.toNat_natCast]; exact hl
    rcases find_spec s q 0 (Nat.zero_le _) with ⟨hnf, hno⟩ | ⟨_, hk2, hk3, hk4⟩
    · have hbody := @loopBody_notFound q (effectiveSize q) s (effectiveSize s) ⟨0, 0, true⟩
        ⟨0, 0, 0⟩ ⟨q.length, q, q.length⟩ hw2 hl2 (by simp only []; omega) hnf (le_refl _)
        (by decide) (le_refl _)
      rw [fits_false_of_first_body (by rw [hps]; omega) (by rw [hss]; omega) hbody.1]
      simp only [Bool.false_eq_true, false_iff]
      intro h
      exact hno 0 (le_refl _) (by rw [h]; simp)
    · obtain ⟨k, hk⟩ : ∃ k, find s q 0 = k := ⟨_, rfl⟩
      rw [hk] at hk2 hk3 hk4
      have hbody := @loopBody_found s q (effectiveSize q) (effectiveSize s) ⟨0, 0, true⟩
        ⟨0, 0, 0⟩ ⟨q.length, q, q.length⟩ k hw2 hl2 (by simp only []; omega) hk (le_refl _)
        (by simp) (by simp only []; omega) (by omega)
      rw [fits_of_first_body (by rw [hps]; omega) (by rw [hss]; omega) hbody
        (by simp only [hps, lt_self_iff_false, false_and, and_false, not_false_eq_true]), hss]
      simp only [distanceCheck, sub_zero, Bool.if_false_left, Bool.and_eq_true,
        Bool.not_eq_true', decide_eq_false_iff_not, not_lt, decide_eq_true_eq]
      constructor
      · rintro ⟨h1, h2, h3⟩
        have hk0 : k = 0 := by omega
        subst hk0
        simp only [List.drop_zero] at hk3
        exact (hk3.eq_of_length (by omega)).symm
      · intro h
        have hk0 : k = 0 := by
          rcases Nat.eq_zero_or_pos k with h0 | h0
          · exact h0
          · exact absurd (by rw [h]; simp) (hk4 0 (le_refl _) h0)
        subst hk0
        rw [h]
        exact ⟨by simp, by simp, Or.inr (by simp)⟩

theorem literal_pattern_iff_witness :
    ((∀ c ∈ ['a', 'b'], c ≠ '?' ∧ c ≠ '*' ∧ c ≠ NUL) ∧ NUL ∉ ['a', 'b', 'c']) ∧
      (StringFitsPattern ['a', 'b', 'c'] ['a', 'b'] = true ↔ ['a', 'b', 'c'] = ['a', 'b']) :=
  ⟨by decide, literal_pattern_iff ['a', 'b', 'c'] ['a', 'b'] (by decide) (by decide) (by decide)
    (by decide) (by decide)⟩

/-- C18: for `L` without `?`, `*` and zero character, a non-empty subject without zero
character fits the pattern `L ++ "*"` exactly when `L` is a prefix of it. -/
theorem prefix_pattern_iff (s L : List Char) (hL : ∀ c ∈ L, c ≠ '?' ∧ c ≠ '*' ∧ c ≠ NUL)
    (hs : NUL ∉ s) (hs1 : 1 ≤ s.length) (hslen : s.length < 2147483648)
    (hplen : (L ++ ['*']).length < 2147483648) :
    StringFitsPattern s (L ++ ['*']) = true ↔ L <+: s := by
  have hpnul : NUL ∉ L ++ ['*'] := by
    simp only [List.mem_append, List.mem_singleton, not_or]
    exact ⟨fun h => (hL _ h).2.2 rfl, by decide⟩
  have hps := effectiveSize_of_no_nul hpnul hplen
  have hss := effectiveSize_of_no_nul hs hslen
  have hplen2 : (L ++ ['*']).length = L.length + 1 := by simp
  -- the segment `*` at the end of the pattern
  have hwS := wildcardRun_append ['*'] [] (L ++ ['*']).length (by simp) L (L ++ ['*']).length
    0 0 (Or.inl (by simp)) (by simp) (by simp; omega) (by simp)
  have hlS := literalRun_append [] [] (L ++ ['*']).length (by simp) (L ++ ['*'])
    (L ++ ['*']).length [] 0 (Or.inl (by simp)) (by simp) (by simp; omega) (by simp)
  simp only [List.nil_append, List.append_nil, List.length_nil, Nat.add_zero,
    List.mem_singleton, if_true, add_zero, List.length_singleton,
    (by decide : List.count '?' ['*'] = 0), Nat.cast_zero] at hwS hlS
  by_cases hne : L = []
  · subst hne
    simp only [List.nil_append, List.length_nil, Nat.cast_zero, Nat.zero_add] at *
    have hbody : loopBody s ['*'] (effectiveSize ['*']) (effectiveSize s) ⟨0, 0, true⟩ =
        ⟨1, s.length, distanceCheck ⟨1, 0, -1⟩ ((s.length : Int) - 0)⟩ := by
      rw [hss]
      exact @loopBody_noLiteral s ['*'] (effectiveSize ['*']) s.length ⟨0, 0, true⟩ ⟨1, 0, -1⟩
        ⟨1, [], 0⟩ (by decide) (by decide) rfl rfl (le_refl _) (by simp only []; omega)
        (by omega)
    have hp1 : effectiveSize ['*'] = 1 := by decide
    rw [fits_of_first_body (by decide) (by rw [hss]; omega) hbody
      (by rw [hp1]; simp), hss]
    simp [distanceCheck]
  · obtain ⟨c, L2, hq⟩ : ∃ c L2, L = c :: L2 := List.exists_cons_of_ne_nil hne
    have hc := hL c (by rw [hq]; exact List.mem_cons_self _ _)
    have hLpos : 0 < L.length := List.length_pos.mpr hne
    -- the segment made of the literal `L`
    have hw := wildcardRun_append [] (L ++ ['*']) (L ++ ['*']).length (by simp) []
      (L ++ ['*']).length 0 0 (Or.inr ⟨c, L2 ++ ['*'], by rw [hq]; rfl, hc.1, hc.2.1⟩)
      (by simp; omega) (by simp; omega) (by simp)
    have hl := literalRun_append L ['*'] (L ++ ['*']).length
      (fun d hd => ⟨(hL d hd).1, (hL d hd).2.1⟩) [] (L ++ ['*']).length [] 0
      (Or.inr ⟨'*', [], rfl, Or.inr rfl⟩) (by simp) (by simp; omega) (by simp)
    simp only [List.nil_append, List.length_nil, Nat.zero_add, Nat.add_zero,
      Nat.cast_zero, zero_add, add_zero, le_refl, if_true, List.not_mem_nil, if_false,
      List.count_nil] at hw hl
    generalize hP : L ++ ['*'] = P at *
    have hw1 : wildcardRun P (effectiveSize P) (effectiveSize P).toNat ⟨0, 0, 0⟩ = ⟨0, 0, 0⟩ := by
      rw [hps, Int.toNat_natCast]; exact hw
    have hl1 : literalRun P (effectiveSize P) (effectiveSize P).toNat ⟨0, [], 0⟩ =
        ⟨L.length, L, L.length⟩ := by
      rw [hps, Int.toNat_natCast]; exact hl
    have hw2 : wildcardRun P (effectiveSize P) (effectiveSize P).toNat ⟨L.length, 0, 0⟩ =
        ⟨((L.length + 1 : Nat) : Int), 0, -1⟩ := by
      rw [hps, Int.toNat_natCast]; exact hwS
    have hl2 : literalRun P (effectiveSize P) (effectiveSize P).toNat
        ⟨((L.length + 1 : Nat) : Int), [], 0⟩ = ⟨((L.length + 1 : Nat) : Int), [], 0⟩ := by
      rw [hps, Int.toNat_natCast, ← hplen2]; exact hlS
    rcases find_spec s L 0 (Nat.zero_le _) with ⟨hnf, hno⟩ | ⟨_, hk2, hk3, hk4⟩
    · have hbody := @loopBody_notFound P (effectiveSize P) s (effectiveSize s) ⟨0, 0, true⟩
        ⟨0, 0, 0⟩ ⟨L.length, L, L.length⟩ hw1 hl1 (by simp only []; omega) hnf (le_refl _)
        (by decide) (le_refl _)
      rw [fits_false_of_first_body (by rw [hps]; omega) (by rw [hss]; omega) hbody.1]
      simp only [Bool.false_eq_true, false_iff]
      intro h
      exact hno 0 (le_refl _) (by simpa using h)
    · obtain ⟨k, hk⟩ : ∃ k, find s L 0 = k := ⟨_, rfl⟩
      rw [hk] at hk2 hk3 hk4
      have hbody := @loopBody_found s P (effectiveSize P) (effectiveSize s) ⟨0, 0, true⟩
        ⟨0, 0, 0⟩ ⟨L.length, L, L.length⟩ k hw1 hl1 (by simp only []; omega) hk (le_refl _)
        (by simp) (by simp only []; omega) (by omega)
      rcases Nat.eq_zero_or_pos k with hk0 | hkpos
      · subst hk0
        have hpre : L <+: s := by simpa using hk3
        simp only [hpre, iff_true]
        have hbody1 : loopBody s P (effectiveSize P) (effectiveSize s) ⟨0, 0, true⟩ =
            ⟨L.length, L.length, true⟩ := by
          rw [hbody]
          simp [distanceCheck]
        rcases Nat.lt_or_ge L.length s.length with hlt | hge
        · have hbody2 : loopBody s P (effectiveSize P) (effectiveSize s)
              ⟨L.length, L.length, true⟩ = ⟨((L.length + 1 : Nat) : Int), s.length,
                distanceCheck ⟨((L.length + 1 : Nat) : Int), 0, -1⟩
                  ((s.length : Int) - L.length)⟩ := by
            rw [hss]
            exact @loopBody_noLiteral s P (effectiveSize P) s.length ⟨L.length, L.length, true⟩
              ⟨((L.length + 1 : Nat) : Int), 0, -1⟩ ⟨((L.length + 1 : Nat) : Int), [], 0⟩
              hw2 hl2 rfl rfl (by simp) (by simp only []; omega) (by omega)
          rw [fits_of_second_body (by rw [hps]; omega) (by rw [hss]; omega) hbody1
            ⟨rfl, by rw [hps]; simp only []; omega, by rw [hss]; simp only []; omega⟩ hbody2
            (by simp only [hps, hplen2, lt_self_iff_false, false_and, and_false,
              not_false_eq_true]), hss]
          simp only [distanceCheck, lt_self_iff_false, if_false, decide_eq_true_eq]
          exact ⟨by omega, Or.inl trivial⟩
        · rw [fits_of_first_body (by rw [hps]; omega) (by rw [hss]; omega) hbody1
            (by rw [hss]; simp only [not_and, not_lt]; intro _ _; omega), hss]
          simp only [Bool.if_false_left, Bool.and_true, Bool.not_eq_true',
            decide_eq_false_iff_not, not_lt]
          omega
      · have hok : (loopBody s P (effectiveSize P) (effectiveSize s) ⟨0, 0, true⟩).ok =
            false := by
          rw [hbody]
          simp only [distanceCheck, sub_zero, decide_eq_false_iff_not, not_and, not_or]
          intro _
          exact ⟨by decide, by omega⟩
        rw [fits_false_of_first_body (by rw [hps]; omega) (by rw [hss]; omega) hok]
        simp only [Bool.false_eq_true, false_iff]
        intro h
        exact hk4 0 (le_refl _) hkpos (by simpa using h)

theorem prefix_pattern_iff_witness :
    ((∀ c ∈ ['a', 'b'], c ≠ '?' ∧ c ≠ '*' ∧ c ≠ NUL) ∧ NUL ∉ ['a', 'b', 'c']) ∧
      (StringFitsPattern ['a', 'b', 'c'] (['a', 'b'] ++ ['*']) = true ↔
        ['a', 'b'] <+: ['a', 'b', 'c']) :=
  ⟨by decide, prefix_pattern_iff ['a', 'b', 'c'] ['a', 'b'] (by decide) (by decide) (by decide)
    (by decide) (by decide)⟩

/-- C19: a subject of effective length 0 fits every pattern; the main loop is not entered and
the pattern is not examined. -/
theorem fits_exhausted_subject (str pattern : List Char) (h : effectiveLength str = 0) :
    StringFitsPattern str pattern = true ∧
      mainLoop str pattern (effectiveSize pattern) (effectiveSize str)
        (effectiveSize pattern).toNat ⟨0, 0, true⟩ = ⟨0, 0, true⟩ := by
  have hs : effectiveSize str = 0 := by rw [effectiveSize_eq, h]; rfl
  have hl : mainLoop str pattern (effectiveSize pattern) (effectiveSize str)
      (effectiveSize pattern).toNat ⟨0, 0, true⟩ = ⟨0, 0, true⟩ := by
    rw [hs]
    exact mainLoop_stop (by simp) _
  refine ⟨?_, hl⟩
  rw [fits_of_final hl, hs]
  rfl

theorem fits_exhausted_subject_witness :
    effectiveLength [NUL, 'x'] = 0 ∧
      (StringFitsPattern [NUL, 'x'] ['a', '?', 'b'] = true ∧
        mainLoop [NUL, 'x'] ['a', '?', 'b'] (effectiveSize ['a', '?', 'b'])
          (effectiveSize [NUL, 'x']) (effectiveSize ['a', '?', 'b']).toNat ⟨0, 0, true⟩ =
          ⟨0, 0, true⟩) :=
  ⟨by decide, fits_exhausted_subject [NUL, 'x'] ['a', '?', 'b'] (by decide)⟩

end ngstd
